import Mathlib

/-!
# MIPS micro-assembler: embedding of `MIPSParser.hpp`

A shallow embedding of the encoding pipeline of `src/MIPSParser.hpp`
(tokenizer, register resolver, hex-immediate parser, instruction encoder)
followed by theorems about it.

Conventions of the embedding

* A C++ `std::string` is a Lean `String`; the character loops of the source
  run over its list of characters `s.data`.
* A function that can `throw` returns `Except MIPSError _`; statements run in
  source order, so the first failing call decides the error.
* `uint8_t`, `uint16_t`, `uint32_t` and the bit-fields are natural numbers
  with an explicit `% 2 ^ w` at every narrowing assignment.
* `unordered_map::find` / `at` on the three constant tables is `List.lookup`
  (the keys of each table are pairwise different).
-/

namespace MIPSParser

/-! ## Outcomes -/

/-- The failure conditions of the encoder. The first six are the exceptions
thrown by `MIPSParser.hpp` itself, named as in the error taxonomy of the
specification; the payload is the text the source puts into the message.

* `EmptyInstruction`: `std::length_error("Must be at least 1 field")`
* `MalformedOperandCount`: `std::length_error` of a field-count check
* `UnknownOpcode`: `std::invalid_argument(OPCODE + " not a valid OPCODE")`
* `InvalidRegister`: `std::invalid_argument(" Register--" + name + "--Not found")`
* `RegisterOutOfRange`: `std::length_error(" Register position  " + name + ...)`
* `InvalidImmediate`: `std::invalid_argument("Not a valid hex value: " + s)`

The last three are not thrown by the source text but by what it calls:

* `StoulOutOfRange`: the `std::out_of_range` that `std::stoul` throws when the
  converted value does not fit `unsigned long`
* `MapKeyNotFound`: the `std::out_of_range` that `unordered_map::at` throws
  for a key that is not in the map
* `VectorIndexOutOfBounds`: `instruction_fields[i]` with `i >= size()`; the
  C++ behaviour is undefined, the embedding stops there with this outcome. -/
inductive MIPSError where
  | EmptyInstruction
  | MalformedOperandCount (message : String)
  | UnknownOpcode (opcode : String)
  | InvalidRegister (register_name : String)
  | RegisterOutOfRange (register_name : String)
  | InvalidImmediate (string_value : String)
  | StoulOutOfRange
  | MapKeyNotFound (key : String)
  | VectorIndexOutOfBounds (index : Nat)
  deriving DecidableEq, Repr

instance instDecidableEqExcept {ε α : Type} [DecidableEq ε] [DecidableEq α] :
    DecidableEq (Except ε α)
  | .ok a, .ok b =>
    if h : a = b then isTrue (by rw [h]) else isFalse (fun e => h (Except.ok.inj e))
  | .error a, .error b =>
    if h : a = b then isTrue (by rw [h]) else isFalse (fun e => h (Except.error.inj e))
  | .ok _, .error _ => isFalse (fun e => Except.noConfusion e)
  | .error _, .ok _ => isFalse (fun e => Except.noConfusion e)

/-! ## Platform constants -/

/-- Largest `int` (32-bit `int`): the value `operator>>` stores into an `int`
when the digits read denote a larger number (C++11 `num_get`). -/
def INT_MAX : Nat := 2 ^ 31 - 1

/-- Largest `unsigned long` (64-bit `unsigned long`, the LP64 data model):
`std::stoul` throws `std::out_of_range` above it. -/
def ULONG_MAX : Nat := 2 ^ 64 - 1

/-! ## Constant tables -/

/-- The table `register_map`: symbolic register name to canonical form. -/
def register_map : List (String × String) :=
  [("$zero", "$r0"),
   ("$at", "$r1"),
   ("$v0", "$r2"),
   ("$v1", "$r3"),
   ("$a0", "$r4"),
   ("$a1", "$r5"),
   ("$a2", "$r6"),
   ("$a3", "$r7"),
   ("$t0", "$r8"),
   ("$t1", "$r9"),
   ("$t2", "$r10"),
   ("$t3", "$r11"),
   ("$t4", "$r12"),
   ("$t5", "$r13"),
   ("$t6", "$r14"),
   ("$t7", "$r15"),
   ("$s0", "$r16"),
   ("$s1", "$r17"),
   ("$s2", "$r18"),
   ("$s3", "$r19"),
   ("$s4", "$r20"),
   ("$s5", "$r21"),
   ("$s6", "$r22"),
   ("$s7", "$r23"),
   ("$t8", "$r24"),
   ("$t9", "$r25"),
   ("$k0", "$r26"),
   ("$k1", "$r27"),
   ("$gp", "$r28"),
   ("$sp", "$r29"),
   ("$fp", "$r30"),
   ("$ra", "$r31")]

/-- The table `R_function_codes`: mnemonic to function code. -/
def R_function_codes : List (String × Nat) :=
  [("add", 0x20), ("sub", 0x22), ("and", 0x24), ("or", 0x25), ("slt", 0x2A), ("jr", 0x08)]

/-- The table `I_op_codes`: mnemonic to opcode. -/
def I_op_codes : List (String × Nat) :=
  [("lw", 0x23), ("sw", 0x2b), ("beq", 0x04), ("addi", 0x08), ("ori", 0x0D), ("lui", 0x0f)]

/-- The constant `J_op_code`. -/
def J_op_code : String := "j"

/-! ## Bit-field unions

Each union overlays a `uint32_t value` with a struct of bit-fields allocated
from the least significant bit upwards, in declaration order. The embedding
keeps the fields; `value` reads the overlaid word; `value = 0x00` is the
all-zero record; an assignment `x.bit.f = v` stores `v % 2 ^ width f`. -/

/-- The union `R_TYPE_STRUCT`: `funct:6, shamt:5, rd:5, rt:5, rs:5, opcode:6`. -/
structure R_TYPE_STRUCT where
  funct : Nat
  shamt : Nat
  rd : Nat
  rt : Nat
  rs : Nat
  opcode : Nat
  deriving DecidableEq, Repr

/-- The member `value` of `R_TYPE_STRUCT`. -/
def R_TYPE_STRUCT.value (r : R_TYPE_STRUCT) : Nat :=
  (r.opcode <<< 26) ||| (r.rs <<< 21) ||| (r.rt <<< 16) ||| (r.rd <<< 11) |||
    (r.shamt <<< 6) ||| r.funct

/-- The state after `r_fields.value = 0x00`. -/
def R_TYPE_STRUCT.zero : R_TYPE_STRUCT :=
  { funct := 0, shamt := 0, rd := 0, rt := 0, rs := 0, opcode := 0 }

/-- The union `I_TYPE_STRUCT`: `immediate:16, rt:5, rs:5, opcode:6`. -/
structure I_TYPE_STRUCT where
  immediate : Nat
  rt : Nat
  rs : Nat
  opcode : Nat
  deriving DecidableEq, Repr

/-- The member `value` of `I_TYPE_STRUCT`. -/
def I_TYPE_STRUCT.value (r : I_TYPE_STRUCT) : Nat :=
  (r.opcode <<< 26) ||| (r.rs <<< 21) ||| (r.rt <<< 16) ||| r.immediate

/-- The state after `i_fields.value = 0x00`. -/
def I_TYPE_STRUCT.zero : I_TYPE_STRUCT :=
  { immediate := 0, rt := 0, rs := 0, opcode := 0 }

/-! ## Register resolver -/

/-- The test `regex_match(register_name, regex("\\$r[0-9]+"))`: the whole
string is `$`, `r`, then one or more of the characters `0` to `9`. -/
def regex_match_rnumber (register_name : String) : Bool :=
  match register_name.data with
  | '$' :: 'r' :: d :: ds => (d :: ds).all Char.isDigit
  | _ => false

/-- The number denoted by a list of decimal digit characters. -/
def decimalValue (ds : List Char) : Nat :=
  ds.foldl (fun acc c => 10 * acc + (c.toNat - 48)) 0

/-- The extraction `istringstream ss(s); ss >> register_position` into an
`int`, for a stream that starts with a decimal digit: the leading run of
digits is read in base ten, and a number above `INT_MAX` is stored as
`INT_MAX`. -/
def istringstream_read_int (s : String) : Int :=
  let n := decimalValue (s.data.takeWhile Char.isDigit)
  if n ≤ INT_MAX then (n : Int) else (INT_MAX : Int)

/-- The function `MIPSParser::rnumber_register`. -/
def rnumber_register (register_name : String) : Except MIPSError Nat :=
  if regex_match_rnumber register_name then
    -- register_name[0] = '0'; register_name[1] = '0';
    let register_name := String.mk ('0' :: '0' :: register_name.data.drop 2)
    let register_position := istringstream_read_int register_name
    if register_position ≥ 0 ∧ register_position ≤ 31 then
      .ok (register_position % 256).toNat
    else
      .error (.RegisterOutOfRange register_name)
  else
    .error (.InvalidRegister register_name)

/-- The function `MIPSParser::getRegisterValue`. -/
def getRegisterValue (register_name : String) : Except MIPSError Nat :=
  match register_map.lookup register_name with
  | some canonical => rnumber_register canonical
  | none => rnumber_register register_name

/-! ## Immediate parser -/

/-- The character set `"0123456789abcdefABCDEF"` of `is_hex_notation`. -/
def hexChars : List Char := "0123456789abcdefABCDEF".data

/-- The function `MIPSParser::is_hex_notation`: the first two characters are
`0x`, the size exceeds 2, and no character from position 2 on lies outside
`hexChars`. -/
def is_hex_notation (s : String) : Bool :=
  s.data.take 2 == ['0', 'x'] && decide (s.data.length > 2) &&
    (s.data.drop 2).all (fun c => decide (c ∈ hexChars))

/-- The value of one hexadecimal digit character. -/
def hexDigitValue (c : Char) : Nat :=
  if c.isDigit then c.toNat - 48
  else if 'a'.toNat ≤ c.toNat ∧ c.toNat ≤ 'f'.toNat then c.toNat - 87
  else c.toNat - 55

/-- The number denoted by a list of hexadecimal digit characters. -/
def hexValue (ds : List Char) : Nat :=
  ds.foldl (fun acc c => 16 * acc + hexDigitValue c) 0

/-- The call `std::stoul(string_value, nullptr, 16)` on a string accepted by
`is_hex_notation`: the `0x` prefix is skipped, every remaining character is a
hexadecimal digit and is converted, and a number above `ULONG_MAX` makes
`stoul` throw `std::out_of_range`. -/
def stoul_16 (string_value : String) : Except MIPSError Nat :=
  let n := hexValue (string_value.data.drop 2)
  if n ≤ ULONG_MAX then .ok n else .error .StoulOutOfRange

/-- The function `MIPSParser::stringToHex`. -/
def stringToHex (string_value : String) : Except MIPSError Nat :=
  if is_hex_notation string_value then
    (stoul_16 string_value).map (fun n => n % 2 ^ 16)
  else
    .error (.InvalidImmediate string_value)

/-! ## Tokenizer -/

/-- The function `MIPSParser::is_whitespace`:
`str.find_first_not_of(' ') == str.npos`. -/
def is_whitespace (str : String) : Bool :=
  str.data.all (fun c => c == ' ')

/-- The call `std::transform(aux.begin(), aux.end(), aux.begin(), ::tolower)`
in the "C" locale: only `A` to `Z` change. -/
def transform_tolower (aux : String) : String :=
  String.mk (aux.data.map Char.toLower)

/-- The body of the `if` of the tokenizer loop up to `aux.erase()`: the
pending field is appended, lowercased, unless it is all spaces. -/
def pushField (instruction_fields : List String) (aux : String) : List String :=
  if !is_whitespace aux then instruction_fields ++ [transform_tolower aux]
  else instruction_fields

/-- One iteration of the tokenizer loop at an index `i < line.length()`; the
state is `(instruction_fields, aux)`. -/
def extractStep (state : List String × String) (chr : Char) : List String × String :=
  if chr = ',' ∨ chr = ' ' then (pushField state.1 state.2, "")
  else (state.1, String.mk (state.2.data ++ [chr]))

/-- The function `MIPSParser::extractInstructionEntities` (without the
printing): the loop runs over every character and once more at
`i == line.length()`, where the pending field is flushed. -/
def extractInstructionEntities (line : String) : List String :=
  let state := line.data.foldl extractStep ([], "")
  pushField state.1 state.2

/-! ## Instruction encoder -/

/-- The access `instruction_fields[i]`. -/
def vectorAt (instruction_fields : List String) (i : Nat) : Except MIPSError String :=
  match instruction_fields.get? i with
  | some field => .ok field
  | none => .error (.VectorIndexOutOfBounds i)

/-- The call `table.at(key)` on one of the constant tables. -/
def mapAt (table : List (String × Nat)) (key : String) : Except MIPSError Nat :=
  match table.lookup key with
  | some value => .ok value
  | none => .error (.MapKeyNotFound key)

/-- The loop of `getMemoryAccessFields` over the characters of
`instruction_fields[2]`; the result is `(offset, base)`. `(` switches to the
base and is skipped, `)` ends the loop. -/
def splitMemoryOperand : List Char → List Char → List Char → Bool → List Char × List Char
  | [], offset, base, _ => (offset, base)
  | chr :: rest, offset, base, captureBase =>
    if chr = '(' then splitMemoryOperand rest offset base true
    else if chr = ')' then (offset, base)
    else if captureBase then splitMemoryOperand rest offset (base ++ [chr]) captureBase
    else splitMemoryOperand rest (offset ++ [chr]) base captureBase

/-- The function `MIPSParser::getMemoryAccessFields`. -/
def getMemoryAccessFields (instruction_fields : List String) : Except MIPSError I_TYPE_STRUCT := do
  let i_fields := I_TYPE_STRUCT.zero
  let opcode ← mapAt I_op_codes (← vectorAt instruction_fields 0)
  let i_fields := { i_fields with opcode := opcode % 2 ^ 6 }
  let rt ← getRegisterValue (← vectorAt instruction_fields 1)
  let i_fields := { i_fields with rt := rt % 2 ^ 5 }
  let field2 ← vectorAt instruction_fields 2
  let (offset, base) := splitMemoryOperand field2.data [] [] false
  let rs ← getRegisterValue (String.mk base)
  let i_fields := { i_fields with rs := rs % 2 ^ 5 }
  let immediate ← stringToHex (String.mk offset)
  let i_fields := { i_fields with immediate := immediate % 2 ^ 16 }
  pure i_fields

/-- The R-type branch of `generateMachineCode`, entered when `OPCODE` is a key
of `R_function_codes` with value `funct`. -/
def generateRType (instruction_fields : List String) (OPCODE : String) (funct : Nat) :
    Except MIPSError Nat :=
  if ¬ (instruction_fields.length = 4 ∨ instruction_fields.length = 2) then
    .error (.MalformedOperandCount "R type instructions must have 4 or 2 fields")
  else do
    let r_fields := R_TYPE_STRUCT.zero
    let r_fields := { r_fields with funct := funct % 2 ^ 6 }
    if OPCODE = "jr" then do
      let rs ← getRegisterValue (← vectorAt instruction_fields 1)
      let r_fields := { r_fields with rs := rs % 2 ^ 5 }
      pure r_fields.value
    else do
      let rd ← getRegisterValue (← vectorAt instruction_fields 1)
      let r_fields := { r_fields with rd := rd % 2 ^ 5 }
      let rs ← getRegisterValue (← vectorAt instruction_fields 2)
      let r_fields := { r_fields with rs := rs % 2 ^ 5 }
      let rt ← getRegisterValue (← vectorAt instruction_fields 3)
      let r_fields := { r_fields with rt := rt % 2 ^ 5 }
      pure r_fields.value

/-- The I-type branch of `generateMachineCode`, entered when `OPCODE` is a key
of `I_op_codes` with value `opcode`. -/
def generateIType (instruction_fields : List String) (OPCODE : String) (opcode : Nat) :
    Except MIPSError Nat := do
  let i_fields := I_TYPE_STRUCT.zero
  let i_fields := { i_fields with opcode := opcode % 2 ^ 6 }
  if OPCODE = "lw" ∨ OPCODE = "sw" then
    if instruction_fields.length < 3 then
      .error (.MalformedOperandCount "I type instructions must have at least 3 fields")
    else do
      let i_fields ← getMemoryAccessFields instruction_fields
      pure i_fields.value
  else if OPCODE = "lui" then do
    let rt ← getRegisterValue (← vectorAt instruction_fields 1)
    let i_fields := { i_fields with rt := rt % 2 ^ 5 }
    let immediate ← stringToHex (← vectorAt instruction_fields 2)
    let i_fields := { i_fields with immediate := immediate % 2 ^ 16 }
    pure i_fields.value
  else do
    let rt ← getRegisterValue (← vectorAt instruction_fields 1)
    let i_fields := { i_fields with rt := rt % 2 ^ 5 }
    let rs ← getRegisterValue (← vectorAt instruction_fields 2)
    let i_fields := { i_fields with rs := rs % 2 ^ 5 }
    let immediate ← stringToHex (← vectorAt instruction_fields 3)
    let i_fields := { i_fields with immediate := immediate % 2 ^ 16 }
    pure i_fields.value

/-- The function `MIPSParser::generateMachineCode`. -/
def generateMachineCode (instruction_fields : List String) : Except MIPSError Nat :=
  if instruction_fields.length < 2 then
    .error .EmptyInstruction
  else do
    let OPCODE ← vectorAt instruction_fields 0
    match R_function_codes.lookup OPCODE with
    | some funct => generateRType instruction_fields OPCODE funct
    | none =>
      match I_op_codes.lookup OPCODE with
      | some opcode => generateIType instruction_fields OPCODE opcode
      | none =>
        if OPCODE = J_op_code then
          pure 1
        else
          .error (.UnknownOpcode OPCODE)

/-! ## Line driver -/

/-- The body of the `while` loop of `MIPSParser::parse` for one line read by
`getline`: `none` when nothing is written for the line, `some word` when
`word` is written, an error when `generateMachineCode` throws (the exception
is not caught, so the run ends). -/
def parseLine (line : String) : Except MIPSError (Option Nat) :=
  if line.data ≠ [] then
    (generateMachineCode (extractInstructionEntities line)).map some
  else
    .ok none

/-- The loop of `MIPSParser::parse` over the lines of the input: the words
written to the output, in order, and the exception that ended the run, if any
(the words of the lines before the failing one are already written). -/
def parse : List String → List Nat × Option MIPSError
  | [] => ([], none)
  | line :: rest =>
    match parseLine line with
    | .error e => ([], some e)
    | .ok written => (written.toList ++ (parse rest).1, (parse rest).2)

/-! ## Vocabulary of the specification -/

/-- The bit-field of `width` bits that starts at bit `lo` of the word `w`. -/
def bitField (w lo width : Nat) : Nat := (w >>> lo) % 2 ^ width

/-- Specification: a character from `0-9`, `a-f`, `A-F`. -/
def IsHexDigit (c : Char) : Prop :=
  ('0' ≤ c ∧ c ≤ '9') ∨ ('a' ≤ c ∧ c ≤ 'f') ∨ ('A' ≤ c ∧ c ≤ 'F')

instance instDecidableIsHexDigit (c : Char) : Decidable (IsHexDigit c) := by
  unfold IsHexDigit; infer_instance

/-- Specification: the exact lexical form of a hex literal, the two characters
`0x` followed by the one or more hexadecimal digits `ds` and nothing else. -/
def IsHexForm (s : String) (ds : List Char) : Prop :=
  s.data = '0' :: 'x' :: ds ∧ ds ≠ [] ∧ ∀ c ∈ ds, IsHexDigit c

/-- Specification: the numeric value of a string of hexadecimal digits, most
significant digit first. -/
def hexNumeral (ds : List Char) : Nat :=
  Nat.ofDigits 16 (ds.map hexDigitValue).reverse

/-- Specification: `s` is a valid hex literal with value `v`. -/
def IsHexLiteral (s : String) (v : Nat) : Prop :=
  ∃ ds, IsHexForm s ds ∧ hexNumeral ds = v

/-- Specification: `t` is a symbolic name of the register table. -/
def IsSymbolicName (t : String) : Prop :=
  t ∈ register_map.map Prod.fst

/-- Specification: `t` is, as a whole, `$r` followed by the one or more
decimal digits `ds`. -/
def IsCanonicalForm (t : String) (ds : List Char) : Prop :=
  t.data = '$' :: 'r' :: ds ∧ ds ≠ [] ∧ ∀ c ∈ ds, '0' ≤ c ∧ c ≤ '9'

/-- Specification: the decimal value of a string of decimal digits, most
significant digit first. -/
def decimalNumeral (ds : List Char) : Nat :=
  Nat.ofDigits 10 (ds.map (fun c => c.toNat - '0'.toNat)).reverse

/-- Specification: a field delimiter of the tokenizer, the space or the comma. -/
def isDelimiter (c : Char) : Bool := c == ' ' || c == ','

/-- Specification: the maximal non-empty runs of characters other than the
delimiters, left to right: the line is cut at every delimiter and the empty
pieces are dropped. -/
def maximalRuns (line : List Char) : List (List Char) :=
  (line.splitOnP isDelimiter).filter (fun run => decide (run ≠ []))

/-- Specification: the fields of a line, each maximal run mapped through ASCII
lowercase. -/
def lowercaseRuns (line : String) : List String :=
  (maximalRuns line.data).map (fun run => String.mk (run.map Char.toLower))

/-- Specification: the offset text of a memory operand, the characters
preceding the first `(`. -/
def offsetBeforeParen (token : List Char) : List Char :=
  token.takeWhile (fun c => c != '(')

/-- Specification: the base text of a memory operand, the characters between
the first `(` and the first `)` after it, up to the end of the token when no
`)` follows. -/
def baseBetweenParens (token : List Char) : List Char :=
  ((token.dropWhile (fun c => c != '(')).drop 1).takeWhile (fun c => c != ')')

/-- The failures raised while an operand is read or resolved: by
`getRegisterValue`, by `stringToHex`, by `unordered_map::at`, and the read of
`instruction_fields[i]` beyond the size. The three others are raised by
`generateMachineCode` itself before it reads an operand. -/
def MIPSError.isOperandError : MIPSError → Bool
  | .EmptyInstruction => false
  | .MalformedOperandCount _ => false
  | .UnknownOpcode _ => false
  | .InvalidRegister _ => true
  | .RegisterOutOfRange _ => true
  | .InvalidImmediate _ => true
  | .StoulOutOfRange => true
  | .MapKeyNotFound _ => true
  | .VectorIndexOutOfBounds _ => true

/-- A computation that can only fail with an operand failure. -/
def OperandOnly {α : Type} (x : Except MIPSError α) : Prop :=
  ∀ e, x = .error e → e.isOperandError = true

/-! # Theorems -/

/-! ## Characters -/

theorem char_le_iff (a b : Char) : a ≤ b ↔ a.toNat ≤ b.toNat := by
  simp [Char.le_def, Char.toNat, UInt32.le_def, UInt32.toNat, BitVec.le_def]

theorem isHexDigit_of_mem : ∀ c ∈ hexChars, IsHexDigit c := by decide

theorem mem_hexChars_of_isHexDigit (c : Char) (h : IsHexDigit c) : c ∈ hexChars := by
  have hc : Char.ofNat c.toNat = c := Char.ofNat_toNat c
  unfold IsHexDigit at h
  simp only [char_le_iff] at h
  have e0 : '0'.toNat = 48 := by decide
  have e9 : '9'.toNat = 57 := by decide
  have ea : 'a'.toNat = 97 := by decide
  have ef : 'f'.toNat = 102 := by decide
  have eA : 'A'.toNat = 65 := by decide
  have eF : 'F'.toNat = 70 := by decide
  rw [e0, e9, ea, ef, eA, eF] at h
  rw [← hc]
  generalize c.toNat = n at h
  rcases h with ⟨h1, h2⟩ | ⟨h1, h2⟩ | ⟨h1, h2⟩ <;> interval_cases n <;> decide

theorem mem_hexChars_iff (c : Char) : c ∈ hexChars ↔ IsHexDigit c :=
  ⟨isHexDigit_of_mem c, mem_hexChars_of_isHexDigit c⟩

theorem isDigit_iff (c : Char) : c.isDigit = true ↔ ('0' ≤ c ∧ c ≤ '9') := by
  simp only [char_le_iff, Char.isDigit, Bool.and_eq_true, decide_eq_true_eq]
  have e0 : '0'.toNat = 48 := by decide
  have e9 : '9'.toNat = 57 := by decide
  rw [e0, e9]
  simp [Char.toNat, UInt32.le_def, UInt32.toNat, BitVec.le_def]

/-! ## Numerals -/

theorem hexValue_append (ds : List Char) (c : Char) :
    hexValue (ds ++ [c]) = 16 * hexValue ds + hexDigitValue c := by
  simp [hexValue, List.foldl_append]

theorem hexValue_eq_hexNumeral (ds : List Char) : hexValue ds = hexNumeral ds := by
  induction ds using List.reverseRecOn with
  | nil => simp [hexValue, hexNumeral]
  | append_singleton ds c ih =>
    rw [hexValue_append, ih]
    simp [hexNumeral, Nat.ofDigits_cons, Nat.add_comm]

theorem decimalValue_append (ds : List Char) (c : Char) :
    decimalValue (ds ++ [c]) = 10 * decimalValue ds + (c.toNat - 48) := by
  simp [decimalValue, List.foldl_append]

theorem decimalValue_eq_decimalNumeral (ds : List Char) :
    decimalValue ds = decimalNumeral ds := by
  induction ds using List.reverseRecOn with
  | nil => simp [decimalValue, decimalNumeral]
  | append_singleton ds c ih =>
    rw [decimalValue_append, ih]
    have e0 : '0'.toNat = 48 := by decide
    simp [decimalNumeral, Nat.ofDigits_cons, Nat.add_comm, e0]

/-! ## Hex literals -/

theorem is_hex_notation_iff (s : String) :
    is_hex_notation s = true ↔ ∃ ds, IsHexForm s ds := by
  unfold is_hex_notation IsHexForm
  constructor
  · intro h
    simp only [Bool.and_eq_true, beq_iff_eq, decide_eq_true_eq, List.all_eq_true] at h
    obtain ⟨⟨h1, h2⟩, h3⟩ := h
    refine ⟨s.data.drop 2, ?_, ?_, ?_⟩
    · have h4 := List.take_append_drop 2 s.data
      rw [h1] at h4
      exact h4.symm
    · intro h0
      have h5 := congrArg List.length h0
      rw [List.length_drop, List.length_nil] at h5
      omega
    · intro c hc
      exact isHexDigit_of_mem c (h3 c hc)
  · rintro ⟨ds, h1, h2, h3⟩
    simp only [Bool.and_eq_true, beq_iff_eq, decide_eq_true_eq, List.all_eq_true]
    rw [h1]
    refine ⟨⟨by simp, ?_⟩, ?_⟩
    · cases ds with
      | nil => exact absurd rfl h2
      | cons d ds => simp
    · intro c hc
      simp only [List.drop_succ_cons, List.drop_zero] at hc
      exact mem_hexChars_of_isHexDigit c (h3 c hc)

theorem stringToHex_of_form {s : String} {ds : List Char} (h : IsHexForm s ds) :
    stringToHex s =
      if hexNumeral ds ≤ ULONG_MAX then .ok (hexNumeral ds % 2 ^ 16)
      else .error .StoulOutOfRange := by
  have hn : is_hex_notation s = true := (is_hex_notation_iff s).2 ⟨ds, h⟩
  unfold stringToHex stoul_16
  rw [if_pos hn, h.1]
  simp only [List.drop_succ_cons, List.drop_zero, hexValue_eq_hexNumeral]
  split <;> rfl

theorem stringToHex_of_literal {s : String} {v : Nat} (h : IsHexLiteral s v)
    (hv : v ≤ ULONG_MAX) : stringToHex s = .ok (v % 2 ^ 16) := by
  obtain ⟨ds, hform, hval⟩ := h
  rw [stringToHex_of_form hform, hval, if_pos hv]

theorem stringToHex_of_small {s : String} {v : Nat} (h : IsHexLiteral s v)
    (hv : v ≤ 0xFFFF) : stringToHex s = .ok v := by
  rw [stringToHex_of_literal h (by unfold ULONG_MAX; omega), Nat.mod_eq_of_lt (by omega)]

/-! ## Register resolver -/

theorem rnumber_register_le {r : String} {n : Nat} (h : rnumber_register r = .ok n) :
    n ≤ 31 := by
  unfold rnumber_register at h
  split at h
  · simp only at h
    split at h
    · injection h with h
      omega
    · cases h
  · cases h

theorem getRegisterValue_le {r : String} {n : Nat} (h : getRegisterValue r = .ok n) :
    n ≤ 31 := by
  unfold getRegisterValue at h
  split at h <;> exact rnumber_register_le h

theorem regex_match_rnumber_iff (t : String) :
    regex_match_rnumber t = true ↔ ∃ ds, IsCanonicalForm t ds := by
  unfold regex_match_rnumber IsCanonicalForm
  constructor
  · intro h
    split at h
    · rename_i d ds heq
      refine ⟨d :: ds, heq, by simp, ?_⟩
      intro c hc
      rw [List.all_eq_true] at h
      exact (isDigit_iff c).1 (h c hc)
    · cases h
  · rintro ⟨ds, h1, h2, h3⟩
    cases ds with
    | nil => exact absurd rfl h2
    | cons d ds =>
      rw [h1]
      simp only [List.all_eq_true]
      intro c hc
      exact (isDigit_iff c).2 (h3 c hc)

theorem lookup_mem_keys {β : Type} (k : String) (v : β) :
    ∀ (table : List (String × β)), table.lookup k = some v → k ∈ table.map Prod.fst
  | [], h => by simp at h
  | (k1, v1) :: rest, h => by
    rw [List.lookup_cons] at h
    by_cases hk : k = k1
    · simp [hk]
    · have hb : (k == k1) = false := by simpa using hk
      rw [hb] at h
      simp only [List.map_cons, List.mem_cons]
      exact Or.inr (lookup_mem_keys k v rest h)

theorem lookup_none_of_not_mem {β : Type} (k : String) :
    ∀ (table : List (String × β)), k ∉ table.map Prod.fst → table.lookup k = none
  | [], _ => rfl
  | (k1, v1) :: rest, h => by
    simp only [List.map_cons, List.mem_cons, not_or] at h
    have hb : (k == k1) = false := by simpa using h.1
    rw [List.lookup_cons, hb]
    exact lookup_none_of_not_mem k rest h.2

theorem symbolic_names_no_paren :
    ∀ k ∈ register_map.map Prod.fst, ∀ c ∈ k.data, c ≠ '(' ∧ c ≠ ')' := by decide

theorem getRegisterValue_no_paren {r : String} {n : Nat} (h : getRegisterValue r = .ok n) :
    ∀ c ∈ r.data, c ≠ '(' ∧ c ≠ ')' := by
  unfold getRegisterValue at h
  split at h
  · rename_i canonical hl
    exact symbolic_names_no_paren r (lookup_mem_keys r canonical register_map hl)
  · have hm : regex_match_rnumber r = true := by
      unfold rnumber_register at h
      split at h
      · assumption
      · cases h
    obtain ⟨ds, h1, _, h3⟩ := (regex_match_rnumber_iff r).1 hm
    intro c hc
    rw [h1] at hc
    simp only [List.mem_cons] at hc
    rcases hc with rfl | rfl | hc
    · decide
    · decide
    · have hd := h3 c hc
      constructor
      · rintro rfl
        exact absurd hd (by decide)
      · rintro rfl
        exact absurd hd (by decide)

/-! ## Packed words -/

theorem shiftLeft_lor_eq_add (a i b : Nat) (hb : b < 2 ^ i) :
    (a <<< i) ||| b = a * 2 ^ i + b := by
  rw [Nat.shiftLeft_eq, Nat.mul_comm a, Nat.mul_add_lt_is_or hb]

theorem rtype_word_eq (d s t f : Nat) (hd : d ≤ 31) (ht : t ≤ 31) (hf : f < 64) :
    (s <<< 21) ||| (t <<< 16) ||| (d <<< 11) ||| f =
      s * 2 ^ 21 + t * 2 ^ 16 + d * 2 ^ 11 + f := by
  rw [Nat.lor_assoc, Nat.lor_assoc, shiftLeft_lor_eq_add d 11 f (by omega),
    shiftLeft_lor_eq_add t 16 _ (by omega), shiftLeft_lor_eq_add s 21 _ (by omega)]
  omega

theorem itype_word_eq (o s t v : Nat) (hs : s ≤ 31) (ht : t ≤ 31) (hv : v < 2 ^ 16) :
    (o <<< 26) ||| (s <<< 21) ||| (t <<< 16) ||| v =
      o * 2 ^ 26 + s * 2 ^ 21 + t * 2 ^ 16 + v := by
  rw [Nat.lor_assoc, Nat.lor_assoc, shiftLeft_lor_eq_add t 16 v hv,
    shiftLeft_lor_eq_add s 21 _ (by omega), shiftLeft_lor_eq_add o 26 _ (by omega)]
  omega

/-! ## Encoder branches -/

theorem generateMachineCode_rtype (op : String) (f : Nat) (rd rs rt : String) (d s t : Nat)
    (hop : R_function_codes.lookup op = some f) (hjr : op ≠ "jr") (hf : f < 64)
    (hd : getRegisterValue rd = .ok d) (hs : getRegisterValue rs = .ok s)
    (ht : getRegisterValue rt = .ok t) :
    generateMachineCode [op, rd, rs, rt] =
      .ok ((s <<< 21) ||| (t <<< 16) ||| (d <<< 11) ||| f) := by
  have hd5 : d % 32 = d := Nat.mod_eq_of_lt (by have := getRegisterValue_le hd; omega)
  have hs5 : s % 32 = s := Nat.mod_eq_of_lt (by have := getRegisterValue_le hs; omega)
  have ht5 : t % 32 = t := Nat.mod_eq_of_lt (by have := getRegisterValue_le ht; omega)
  have hf6 : f % 64 = f := Nat.mod_eq_of_lt hf
  simp [generateMachineCode, vectorAt, hop, generateRType, hjr, hd, hs, ht, bind, Except.bind,
    pure, Except.pure, R_TYPE_STRUCT.value, R_TYPE_STRUCT.zero, hd5, hs5, ht5, hf6]

theorem generateMachineCode_jr (r : String) (s : Nat) (hs : getRegisterValue r = .ok s) :
    generateMachineCode ["jr", r] = .ok ((s <<< 21) ||| 0x08) := by
  have hs5 : s % 32 = s := Nat.mod_eq_of_lt (by have := getRegisterValue_le hs; omega)
  have hop : R_function_codes.lookup "jr" = some 0x08 := by decide
  simp [generateMachineCode, vectorAt, hop, generateRType, hs, bind, Except.bind,
    pure, Except.pure, R_TYPE_STRUCT.value, R_TYPE_STRUCT.zero, hs5]

theorem generateMachineCode_itype (op : String) (o : Nat) (rt rs imm : String) (t s v : Nat)
    (hR : R_function_codes.lookup op = none) (hop : I_op_codes.lookup op = some o)
    (hlw : op ≠ "lw") (hsw : op ≠ "sw") (hlui : op ≠ "lui") (ho : o < 64)
    (ht : getRegisterValue rt = .ok t) (hs : getRegisterValue rs = .ok s)
    (hv : stringToHex imm = .ok v) (hv16 : v < 2 ^ 16) :
    generateMachineCode [op, rt, rs, imm] =
      .ok ((o <<< 26) ||| (s <<< 21) ||| (t <<< 16) ||| v) := by
  have hs5 : s % 32 = s := Nat.mod_eq_of_lt (by have := getRegisterValue_le hs; omega)
  have ht5 : t % 32 = t := Nat.mod_eq_of_lt (by have := getRegisterValue_le ht; omega)
  have ho6 : o % 64 = o := Nat.mod_eq_of_lt ho
  have hv16 : v % 65536 = v := Nat.mod_eq_of_lt hv16
  simp [generateMachineCode, vectorAt, hR, hop, generateIType, hlw, hsw, hlui, hs, ht, hv, bind,
    Except.bind, pure, Except.pure, I_TYPE_STRUCT.value, I_TYPE_STRUCT.zero, hs5, ht5, ho6, hv16]

theorem generateMachineCode_lui_aux (o : Nat) (rt imm : String) (t v : Nat)
    (hop : I_op_codes.lookup "lui" = some o) (ho : o < 64)
    (ht : getRegisterValue rt = .ok t) (hv : stringToHex imm = .ok v) (hv16 : v < 2 ^ 16) :
    generateMachineCode ["lui", rt, imm] = .ok ((o <<< 26) ||| (t <<< 16) ||| v) := by
  have ht5 : t % 32 = t := Nat.mod_eq_of_lt (by have := getRegisterValue_le ht; omega)
  have ho6 : o % 64 = o := Nat.mod_eq_of_lt ho
  have hv16 : v % 65536 = v := Nat.mod_eq_of_lt hv16
  have hR : R_function_codes.lookup "lui" = none := by decide
  simp [generateMachineCode, vectorAt, hR, hop, generateIType, ht, hv, bind,
    Except.bind, pure, Except.pure, I_TYPE_STRUCT.value, I_TYPE_STRUCT.zero, ht5, hv16, ho6]

theorem generateMachineCode_lui (rt imm : String) (t v : Nat)
    (ht : getRegisterValue rt = .ok t) (hv : stringToHex imm = .ok v) (hv16 : v < 2 ^ 16) :
    generateMachineCode ["lui", rt, imm] = .ok ((0x0F <<< 26) ||| (t <<< 16) ||| v) :=
  generateMachineCode_lui_aux 0x0F rt imm t v (by decide) (by decide) ht hv hv16

theorem rtype_bitFields (d s t f : Nat) (hd : d ≤ 31) (hs : s ≤ 31) (ht : t ≤ 31)
    (hf : f < 64) :
    bitField ((s <<< 21) ||| (t <<< 16) ||| (d <<< 11) ||| f) 26 6 = 0 ∧
    bitField ((s <<< 21) ||| (t <<< 16) ||| (d <<< 11) ||| f) 21 5 = s ∧
    bitField ((s <<< 21) ||| (t <<< 16) ||| (d <<< 11) ||| f) 16 5 = t ∧
    bitField ((s <<< 21) ||| (t <<< 16) ||| (d <<< 11) ||| f) 11 5 = d ∧
    bitField ((s <<< 21) ||| (t <<< 16) ||| (d <<< 11) ||| f) 6 5 = 0 ∧
    bitField ((s <<< 21) ||| (t <<< 16) ||| (d <<< 11) ||| f) 0 6 = f := by
  rw [rtype_word_eq d s t f hd ht hf]
  simp only [bitField, Nat.shiftRight_eq_div_pow]
  norm_num
  omega

theorem itype_bitFields (o s t v : Nat) (ho : o < 64) (hs : s ≤ 31) (ht : t ≤ 31)
    (hv : v < 2 ^ 16) :
    bitField ((o <<< 26) ||| (s <<< 21) ||| (t <<< 16) ||| v) 26 6 = o ∧
    bitField ((o <<< 26) ||| (s <<< 21) ||| (t <<< 16) ||| v) 21 5 = s ∧
    bitField ((o <<< 26) ||| (s <<< 21) ||| (t <<< 16) ||| v) 16 5 = t ∧
    bitField ((o <<< 26) ||| (s <<< 21) ||| (t <<< 16) ||| v) 0 16 = v := by
  rw [itype_word_eq o s t v hs ht hv]
  simp only [bitField, Nat.shiftRight_eq_div_pow]
  norm_num at hv ⊢
  omega

/-! ## Memory operands -/

theorem splitMemoryOperand_offset (xs rest offset base : List Char)
    (hxs : ∀ c ∈ xs, c ≠ '(' ∧ c ≠ ')') :
    splitMemoryOperand (xs ++ rest) offset base false =
      splitMemoryOperand rest (offset ++ xs) base false := by
  induction xs generalizing offset with
  | nil => simp
  | cons x xs ih =>
    have hx := hxs x (List.mem_cons_self x xs)
    rw [List.cons_append, splitMemoryOperand, if_neg hx.1, if_neg hx.2]
    simp only [Bool.false_eq_true, if_false]
    rw [ih _ (fun c hc => hxs c (List.mem_cons_of_mem x hc))]
    simp

theorem splitMemoryOperand_base (xs rest offset base : List Char)
    (hxs : ∀ c ∈ xs, c ≠ '(' ∧ c ≠ ')') :
    splitMemoryOperand (xs ++ rest) offset base true =
      splitMemoryOperand rest offset (base ++ xs) true := by
  induction xs generalizing base with
  | nil => simp
  | cons x xs ih =>
    have hx := hxs x (List.mem_cons_self x xs)
    rw [List.cons_append, splitMemoryOperand, if_neg hx.1, if_neg hx.2]
    simp only [if_true]
    rw [ih _ (fun c hc => hxs c (List.mem_cons_of_mem x hc))]
    simp

theorem splitMemoryOperand_wellFormed (off base tail : List Char)
    (hoff : ∀ c ∈ off, c ≠ '(' ∧ c ≠ ')') (hbase : ∀ c ∈ base, c ≠ '(' ∧ c ≠ ')') :
    splitMemoryOperand (off ++ '(' :: (base ++ ')' :: tail)) [] [] false = (off, base) := by
  rw [splitMemoryOperand_offset off _ [] [] hoff, splitMemoryOperand, if_pos rfl,
    splitMemoryOperand_base base _ _ [] hbase, splitMemoryOperand,
    if_neg (by decide), if_pos rfl]
  simp

theorem hexForm_no_paren {s : String} {ds : List Char} (h : IsHexForm s ds) :
    ∀ c ∈ s.data, c ≠ '(' ∧ c ≠ ')' := by
  intro c hc
  rw [h.1] at hc
  simp only [List.mem_cons] at hc
  rcases hc with rfl | rfl | hc
  · decide
  · decide
  · have hd := h.2.2 c hc
    constructor
    · rintro rfl
      exact absurd hd (by decide)
    · rintro rfl
      exact absurd hd (by decide)

theorem generateMachineCode_memory (op : String) (o : Nat) (rt off base : String) (t s v : Nat)
    (hR : R_function_codes.lookup op = none) (hop : I_op_codes.lookup op = some o)
    (hmem : op = "lw" ∨ op = "sw") (ho : o < 64)
    (ht : getRegisterValue rt = .ok t) (hs : getRegisterValue base = .ok s)
    (hlit : IsHexLiteral off v) (hv : v ≤ 0xFFFF) :
    generateMachineCode [op, rt, off ++ "(" ++ base ++ ")"] =
      .ok ((o <<< 26) ||| (s <<< 21) ||| (t <<< 16) ||| v) := by
  have hs5 : s % 32 = s := Nat.mod_eq_of_lt (by have := getRegisterValue_le hs; omega)
  have ht5 : t % 32 = t := Nat.mod_eq_of_lt (by have := getRegisterValue_le ht; omega)
  have ho6 : o % 64 = o := Nat.mod_eq_of_lt ho
  have hv16 : v % 65536 = v := Nat.mod_eq_of_lt (by omega)
  obtain ⟨ds, hform, hval⟩ := hlit
  have hsplit : splitMemoryOperand (off.data ++ '(' :: (base.data ++ [')'])) [] [] false =
      (off.data, base.data) :=
    splitMemoryOperand_wellFormed off.data base.data []
      (hexForm_no_paren hform) (getRegisterValue_no_paren hs)
  have hhex : stringToHex off = .ok v := stringToHex_of_small ⟨ds, hform, hval⟩ hv
  simp [generateMachineCode, vectorAt, hR, hop, generateIType, hmem, getMemoryAccessFields,
    mapAt, hsplit, hs, ht, hhex, bind, Except.bind, pure, Except.pure, I_TYPE_STRUCT.value,
    I_TYPE_STRUCT.zero, hs5, ht5, ho6, hv16]

/-! ## Claims about the instruction encoder -/

/-- C1 (as amended). For every mnemonic `op` of `add, sub, and, or, slt` with
function code `f` (`0x20, 0x22, 0x24, 0x25, 0x2A`) and register tokens `rd`,
`rs`, `rt` that resolve to `d`, `s`, `t`, `generateMachineCode [op, rd, rs, rt]`
returns exactly `(s << 21) | (t << 16) | (d << 11) | f`, whose opcode bits 26-31
and shamt bits 6-10 are zero. Tokenizing and encoding `ADD $v1, $v0, $at` gives
`0x00411820`, the value of that formula at `s = 2, t = 1, d = 3, f = 0x20`. -/
theorem rtype_encoding :
    (∀ (op : String) (f : Nat) (rd rs rt : String) (d s t : Nat),
      (op, f) ∈ [("add", 0x20), ("sub", 0x22), ("and", 0x24), ("or", 0x25), ("slt", 0x2A)] →
      getRegisterValue rd = .ok d → getRegisterValue rs = .ok s →
      getRegisterValue rt = .ok t →
      generateMachineCode [op, rd, rs, rt] =
        .ok ((s <<< 21) ||| (t <<< 16) ||| (d <<< 11) ||| f) ∧
      bitField ((s <<< 21) ||| (t <<< 16) ||| (d <<< 11) ||| f) 26 6 = 0 ∧
      bitField ((s <<< 21) ||| (t <<< 16) ||| (d <<< 11) ||| f) 6 5 = 0) ∧
    generateMachineCode (extractInstructionEntities "ADD $v1, $v0, $at") = .ok 0x00411820 ∧
    ((2 <<< 21) ||| (1 <<< 16) ||| (3 <<< 11) ||| 0x20 : Nat) = 0x00411820 := by
  refine ⟨?_, by decide, by decide⟩
  intro op f rd rs rt d s t hop hd hs ht
  have hf : f < 64 ∧ R_function_codes.lookup op = some f ∧ op ≠ "jr" := by
    simp only [List.mem_cons, Prod.mk.injEq, List.mem_singleton, List.mem_nil_iff,
      or_false] at hop
    rcases hop with ⟨rfl, rfl⟩ | ⟨rfl, rfl⟩ | ⟨rfl, rfl⟩ | ⟨rfl, rfl⟩ | ⟨rfl, rfl⟩ <;> decide
  have hb := rtype_bitFields d s t f (getRegisterValue_le hd) (getRegisterValue_le hs)
    (getRegisterValue_le ht) hf.1
  exact ⟨generateMachineCode_rtype op f rd rs rt d s t hf.2.1 hf.2.2 hf.1 hd hs ht,
    hb.1, hb.2.2.2.2.1⟩

/-- Witness for C1: the general statement at `add $v1, $v0, $at`. -/
theorem rtype_encoding_witness :
    generateMachineCode ["add", "$v1", "$v0", "$at"] =
        .ok ((2 <<< 21) ||| (1 <<< 16) ||| (3 <<< 11) ||| 0x20) ∧
      bitField ((2 <<< 21) ||| (1 <<< 16) ||| (3 <<< 11) ||| 0x20) 26 6 = 0 ∧
      bitField ((2 <<< 21) ||| (1 <<< 16) ||| (3 <<< 11) ||| 0x20) 6 5 = 0 :=
  rtype_encoding.1 "add" 0x20 "$v1" "$v0" "$at" 3 2 1 (by decide) (by decide) (by decide)
    (by decide)

/-- Counterexample to C1 as stated: tokenizing and encoding `ADD $v1, $v0, $at`
gives `0x00411820`, not `0x00440820`. -/
theorem rtype_example_word_differs :
    generateMachineCode (extractInstructionEntities "ADD $v1, $v0, $at") = .ok 0x00411820 ∧
    generateMachineCode (extractInstructionEntities "ADD $v1, $v0, $at") ≠ .ok 0x00440820 := by
  decide

/-- C2. For every mnemonic `op` of `addi, ori, beq` with opcode `o`
(`0x08, 0x0D, 0x04`), register tokens `rt`, `rs` that resolve to `t`, `s` and
every valid hex literal `imm` with value `v <= 0xFFFF`,
`generateMachineCode [op, rt, rs, imm]` returns exactly
`(o << 26) | (s << 21) | (t << 16) | v`. Tokenizing and encoding
`ORI $t1,$t1, 0x14` gives `0x35290014`. -/
theorem itype_encoding :
    (∀ (op : String) (o : Nat) (rt rs imm : String) (t s v : Nat),
      (op, o) ∈ [("beq", 0x04), ("addi", 0x08), ("ori", 0x0D)] →
      getRegisterValue rt = .ok t → getRegisterValue rs = .ok s →
      IsHexLiteral imm v → v ≤ 0xFFFF →
      generateMachineCode [op, rt, rs, imm] =
        .ok ((o <<< 26) ||| (s <<< 21) ||| (t <<< 16) ||| v)) ∧
    generateMachineCode (extractInstructionEntities "ORI $t1,$t1, 0x14") = .ok 0x35290014 := by
  refine ⟨?_, by decide⟩
  intro op o rt rs imm t s v hop ht hs hlit hv
  have ho : o < 64 ∧ R_function_codes.lookup op = none ∧ I_op_codes.lookup op = some o ∧
      op ≠ "lw" ∧ op ≠ "sw" ∧ op ≠ "lui" := by
    simp only [List.mem_cons, Prod.mk.injEq, List.mem_singleton, List.mem_nil_iff,
      or_false] at hop
    rcases hop with ⟨rfl, rfl⟩ | ⟨rfl, rfl⟩ | ⟨rfl, rfl⟩ <;> decide
  exact generateMachineCode_itype op o rt rs imm t s v ho.2.1 ho.2.2.1 ho.2.2.2.1
    ho.2.2.2.2.1 ho.2.2.2.2.2 ho.1 ht hs (stringToHex_of_small hlit hv) (by omega)

/-- Witness for C2: the general statement at `ori $t1, $t1, 0x14`. -/
theorem itype_encoding_witness :
    generateMachineCode ["ori", "$t1", "$t1", "0x14"] =
      .ok ((0x0D <<< 26) ||| (9 <<< 21) ||| (9 <<< 16) ||| 20) :=
  itype_encoding.1 "ori" 0x0D "$t1" "$t1" "0x14" 9 9 20 (by decide) (by decide) (by decide)
    ⟨['1', '4'], ⟨rfl, by decide, by decide⟩, by decide⟩ (by decide)

/-- C3. For `op` of `lw, sw` with opcode `o` (`0x23, 0x2b`), a register token
`rt` that resolves to `t`, a register token `base` that resolves to `s` and a
valid hex literal `off` with value `v <= 0xFFFF`,
`generateMachineCode [op, rt, off ++ "(" ++ base ++ ")"]` returns exactly
`(o << 26) | (s << 21) | (t << 16) | v`: the base is in the rs field, the offset
in the immediate field, the second field in the rt field. Tokenizing and
encoding `LW $v1, 0x08($zero)` gives `0x8C030008`. -/
theorem memory_encoding :
    (∀ (op : String) (o : Nat) (rt off base : String) (t s v : Nat),
      (op, o) ∈ [("lw", 0x23), ("sw", 0x2b)] →
      getRegisterValue rt = .ok t → getRegisterValue base = .ok s →
      IsHexLiteral off v → v ≤ 0xFFFF →
      generateMachineCode [op, rt, off ++ "(" ++ base ++ ")"] =
        .ok ((o <<< 26) ||| (s <<< 21) ||| (t <<< 16) ||| v) ∧
      bitField ((o <<< 26) ||| (s <<< 21) ||| (t <<< 16) ||| v) 26 6 = o ∧
      bitField ((o <<< 26) ||| (s <<< 21) ||| (t <<< 16) ||| v) 21 5 = s ∧
      bitField ((o <<< 26) ||| (s <<< 21) ||| (t <<< 16) ||| v) 16 5 = t ∧
      bitField ((o <<< 26) ||| (s <<< 21) ||| (t <<< 16) ||| v) 0 16 = v) ∧
    generateMachineCode (extractInstructionEntities "LW $v1, 0x08($zero)") = .ok 0x8C030008 := by
  refine ⟨?_, by decide⟩
  intro op o rt off base t s v hop ht hs hlit hv
  have ho : o < 64 ∧ R_function_codes.lookup op = none ∧ I_op_codes.lookup op = some o ∧
      (op = "lw" ∨ op = "sw") := by
    simp only [List.mem_cons, Prod.mk.injEq, List.mem_singleton, List.mem_nil_iff,
      or_false] at hop
    rcases hop with ⟨rfl, rfl⟩ | ⟨rfl, rfl⟩ <;> decide
  exact ⟨generateMachineCode_memory op o rt off base t s v ho.2.1 ho.2.2.1 ho.2.2.2 ho.1 ht hs
      hlit hv,
    itype_bitFields o s t v ho.1 (getRegisterValue_le hs) (getRegisterValue_le ht) (by omega)⟩

/-- Witness for C3: the general statement at `lw $v1, 0x08($zero)`. -/
theorem memory_encoding_witness :
    generateMachineCode ["lw", "$v1", "0x08" ++ "(" ++ "$zero" ++ ")"] =
        .ok ((0x23 <<< 26) ||| (0 <<< 21) ||| (3 <<< 16) ||| 8) ∧
      bitField ((0x23 <<< 26) ||| (0 <<< 21) ||| (3 <<< 16) ||| 8) 26 6 = 0x23 ∧
      bitField ((0x23 <<< 26) ||| (0 <<< 21) ||| (3 <<< 16) ||| 8) 21 5 = 0 ∧
      bitField ((0x23 <<< 26) ||| (0 <<< 21) ||| (3 <<< 16) ||| 8) 16 5 = 3 ∧
      bitField ((0x23 <<< 26) ||| (0 <<< 21) ||| (3 <<< 16) ||| 8) 0 16 = 8 :=
  memory_encoding.1 "lw" 0x23 "$v1" "0x08" "$zero" 3 0 8 (by decide) (by decide) (by decide)
    ⟨['0', '8'], ⟨rfl, by decide, by decide⟩, by decide⟩ (by decide)

/-- C4. For every register token `r` that resolves to `s`,
`generateMachineCode ["jr", r]` returns exactly `(s << 21) | 0x08`: the rs field
holds `s`, the funct field `0x08`, and opcode, rt, rd and shamt are zero.
Encoding `["jr", "$ra"]` gives `0x03E00008`. -/
theorem jr_encoding :
    (∀ (r : String) (s : Nat), getRegisterValue r = .ok s →
      generateMachineCode ["jr", r] = .ok ((s <<< 21) ||| 0x08) ∧
      bitField ((s <<< 21) ||| 0x08) 26 6 = 0 ∧
      bitField ((s <<< 21) ||| 0x08) 21 5 = s ∧
      bitField ((s <<< 21) ||| 0x08) 16 5 = 0 ∧
      bitField ((s <<< 21) ||| 0x08) 11 5 = 0 ∧
      bitField ((s <<< 21) ||| 0x08) 6 5 = 0 ∧
      bitField ((s <<< 21) ||| 0x08) 0 6 = 0x08) ∧
    generateMachineCode ["jr", "$ra"] = .ok 0x03E00008 := by
  refine ⟨?_, by decide⟩
  intro r s hs
  have hle := getRegisterValue_le hs
  have hb := rtype_bitFields 0 s 0 0x08 (by omega) hle (by omega) (by omega)
  simp only [Nat.zero_shiftLeft, Nat.or_zero] at hb
  exact ⟨generateMachineCode_jr r s hs, hb⟩

/-- Witness for C4: the general statement at `jr $ra`. -/
theorem jr_encoding_witness :
    generateMachineCode ["jr", "$ra"] = .ok ((31 <<< 21) ||| 0x08) ∧
      bitField ((31 <<< 21) ||| 0x08) 26 6 = 0 ∧
      bitField ((31 <<< 21) ||| 0x08) 21 5 = 31 ∧
      bitField ((31 <<< 21) ||| 0x08) 16 5 = 0 ∧
      bitField ((31 <<< 21) ||| 0x08) 11 5 = 0 ∧
      bitField ((31 <<< 21) ||| 0x08) 6 5 = 0 ∧
      bitField ((31 <<< 21) ||| 0x08) 0 6 = 0x08 :=
  jr_encoding.1 "$ra" 31 (by decide)

/-- C5. For every register token `rt` that resolves to `t` and every valid hex
literal `imm` with value `v <= 0xFFFF`, `generateMachineCode ["lui", rt, imm]`
returns exactly `(0x0F << 26) | (t << 16) | v`: the rs field is zero and the
immediate field holds `v` itself, unshifted. Tokenizing and encoding
`LUI $t1, 0x2000` gives `0x3C092000`. -/
theorem lui_encoding :
    (∀ (rt imm : String) (t v : Nat),
      getRegisterValue rt = .ok t → IsHexLiteral imm v → v ≤ 0xFFFF →
      generateMachineCode ["lui", rt, imm] = .ok ((0x0F <<< 26) ||| (t <<< 16) ||| v) ∧
      bitField ((0x0F <<< 26) ||| (t <<< 16) ||| v) 21 5 = 0 ∧
      bitField ((0x0F <<< 26) ||| (t <<< 16) ||| v) 0 16 = v) ∧
    generateMachineCode (extractInstructionEntities "LUI $t1, 0x2000") = .ok 0x3C092000 := by
  refine ⟨?_, by decide⟩
  intro rt imm t v ht hlit hv
  have hb := itype_bitFields 0x0F 0 t v (by omega) (by omega) (getRegisterValue_le ht)
    (by omega)
  simp only [Nat.zero_shiftLeft, Nat.or_zero] at hb
  exact ⟨generateMachineCode_lui rt imm t v ht (stringToHex_of_small hlit hv) (by omega),
    hb.2.1, hb.2.2.2⟩

/-- Witness for C5: the general statement at `lui $t1, 0x2000`. -/
theorem lui_encoding_witness :
    generateMachineCode ["lui", "$t1", "0x2000"] =
        .ok ((0x0F <<< 26) ||| (9 <<< 16) ||| 0x2000) ∧
      bitField ((0x0F <<< 26) ||| (9 <<< 16) ||| 0x2000) 21 5 = 0 ∧
      bitField ((0x0F <<< 26) ||| (9 <<< 16) ||| 0x2000) 0 16 = 0x2000 :=
  lui_encoding.1 "$t1" "0x2000" 9 0x2000 (by decide)
    ⟨['2', '0', '0', '0'], ⟨rfl, by decide, by decide⟩, by decide⟩ (by decide)

/-! ## Outcomes of the register resolver -/

theorem lookup_of_mem_keys {β : Type} (k : String) :
    ∀ (table : List (String × β)), k ∈ table.map Prod.fst →
      ∃ v, table.lookup k = some v ∧ (k, v) ∈ table
  | [], h => by simp at h
  | (k1, v1) :: rest, h => by
    by_cases hk : k = k1
    · refine ⟨v1, ?_, ?_⟩
      · rw [List.lookup_cons, hk, beq_self_eq_true]
      · rw [hk]
        exact List.mem_cons_self _ _
    · have hb : (k == k1) = false := by simpa using hk
      simp only [List.map_cons, List.mem_cons] at h
      obtain ⟨v, hv, hmem⟩ := lookup_of_mem_keys k rest (h.resolve_left hk)
      exact ⟨v, by rw [List.lookup_cons, hb]; exact hv, List.mem_cons_of_mem _ hmem⟩

theorem symbolic_names_not_canonical :
    ∀ k ∈ register_map.map Prod.fst, regex_match_rnumber k = false := by decide

theorem canonical_forms_resolve :
    ∀ e ∈ register_map, ∃ n, n < 32 ∧ rnumber_register e.2 = .ok n := by decide

theorem rnumber_register_of_canonical {t : String} {ds : List Char}
    (h : IsCanonicalForm t ds) :
    rnumber_register t =
      if decimalNumeral ds ≤ 31 then .ok (decimalNumeral ds)
      else .error (.RegisterOutOfRange (String.mk ('0' :: '0' :: ds))) := by
  have hm : regex_match_rnumber t = true := (regex_match_rnumber_iff t).2 ⟨ds, h⟩
  have htake : List.takeWhile Char.isDigit ('0' :: '0' :: ds) = '0' :: '0' :: ds := by
    rw [List.takeWhile_eq_self_iff]
    intro c hc
    simp only [List.mem_cons] at hc
    rcases hc with rfl | rfl | hc
    · decide
    · decide
    · exact (isDigit_iff c).2 (h.2.2 c hc)
  have hval : decimalValue ('0' :: '0' :: ds) = decimalNumeral ds := by
    rw [← decimalValue_eq_decimalNumeral]
    simp [decimalValue]
  unfold rnumber_register istringstream_read_int
  rw [if_pos hm, h.1]
  simp only [List.drop_succ_cons, List.drop_zero, htake, hval]
  generalize decimalNumeral ds = n
  unfold INT_MAX
  by_cases hn : n ≤ 31
  · rw [if_pos hn, if_pos (by omega), if_pos (by omega)]
    congr 1
    omega
  · rw [if_neg hn]
    split
    · rw [if_neg (by omega)]
    · rw [if_neg (by omega)]

theorem rnumber_register_of_not_canonical {t : String}
    (h : ¬ ∃ ds, IsCanonicalForm t ds) :
    rnumber_register t = .error (.InvalidRegister t) := by
  have hm : ¬ regex_match_rnumber t = true := fun hm => h ((regex_match_rnumber_iff t).1 hm)
  unfold rnumber_register
  rw [if_neg hm]

theorem canonicalForm_unique {t : String} {ds es : List Char}
    (h1 : IsCanonicalForm t ds) (h2 : IsCanonicalForm t es) : ds = es := by
  have h := h1.1.symm.trans h2.1
  simpa using h

/-- The outcome of `getRegisterValue` by the form of the token. -/
theorem getRegisterValue_cases (t : String) :
    (IsSymbolicName t ∧ (¬ ∃ ds, IsCanonicalForm t ds) ∧
      ∃ n, n ≤ 31 ∧ getRegisterValue t = .ok n) ∨
    (¬ IsSymbolicName t ∧ ∃ ds, IsCanonicalForm t ds ∧ decimalNumeral ds ≤ 31 ∧
      getRegisterValue t = .ok (decimalNumeral ds)) ∨
    (¬ IsSymbolicName t ∧ ∃ ds, IsCanonicalForm t ds ∧ 31 < decimalNumeral ds ∧
      getRegisterValue t = .error (.RegisterOutOfRange (String.mk ('0' :: '0' :: ds)))) ∨
    (¬ IsSymbolicName t ∧ (¬ ∃ ds, IsCanonicalForm t ds) ∧
      getRegisterValue t = .error (.InvalidRegister t)) := by
  by_cases hsym : IsSymbolicName t
  · left
    obtain ⟨canonical, hl, hmem⟩ := lookup_of_mem_keys t register_map hsym
    refine ⟨hsym, ?_, ?_⟩
    · intro hc
      have h1 := symbolic_names_not_canonical t hsym
      rw [(regex_match_rnumber_iff t).2 hc] at h1
      cases h1
    · obtain ⟨n, hn, hr⟩ := canonical_forms_resolve (t, canonical) hmem
      refine ⟨n, by omega, ?_⟩
      unfold getRegisterValue
      rw [hl]
      exact hr
  · right
    have hl : register_map.lookup t = none := lookup_none_of_not_mem t register_map hsym
    have hg : getRegisterValue t = rnumber_register t := by
      unfold getRegisterValue
      rw [hl]
    by_cases hc : ∃ ds, IsCanonicalForm t ds
    · obtain ⟨ds, hds⟩ := hc
      have hr := rnumber_register_of_canonical hds
      by_cases hn : decimalNumeral ds ≤ 31
      · left
        rw [if_pos hn] at hr
        exact ⟨hsym, ds, hds, hn, hg.trans hr⟩
      · right; left
        rw [if_neg hn] at hr
        exact ⟨hsym, ds, hds, by omega, hg.trans hr⟩
    · right; right
      exact ⟨hsym, hc, hg.trans (rnumber_register_of_not_canonical hc)⟩

/-! ## Claims about the register resolver -/

/-- C6. The register table has 32 entries; for every entry `(name, canonical)`
there is an index `n < 32` with `canonical = "$r" ++ n` in decimal such that
`getRegisterValue name` and `getRegisterValue canonical` both succeed with `n`;
the 32 symbolic names are pairwise different and resolve, in table order, to
`0, 1, ..., 31`, so to 32 distinct indices that cover exactly `0..31`
(`getRegisterValue "$t1" = getRegisterValue "$r9" = 9`). -/
theorem register_table_resolution :
    register_map.length = 32 ∧
    (∀ e ∈ register_map, ∃ n, n < 32 ∧ e.2 = "$r" ++ toString n ∧
      getRegisterValue e.1 = .ok n ∧ getRegisterValue e.2 = .ok n) ∧
    (register_map.map Prod.fst).Nodup ∧
    register_map.map (fun e => getRegisterValue e.1) = (List.range 32).map Except.ok ∧
    getRegisterValue "$t1" = .ok 9 ∧ getRegisterValue "$r9" = .ok 9 := by
  refine ⟨by decide, by decide, by decide, by decide, by decide, by decide⟩

/-- Witness for C6: the entry `("$t1", "$r9")` of the table has index 9. -/
theorem register_table_resolution_witness :
    ∃ n, n < 32 ∧ "$r9" = "$r" ++ toString n ∧
      getRegisterValue "$t1" = .ok n ∧ getRegisterValue "$r9" = .ok n :=
  register_table_resolution.2.1 ("$t1", "$r9") (by decide)

/-- C7. For every token `t` the outcome of `getRegisterValue t` is exactly one
of three: `InvalidRegister`, if and only if `t` is neither a symbolic name of
the table nor, as a whole, `$r` followed by one or more decimal digits;
`RegisterOutOfRange`, if and only if `t` is `$r` followed by one or more decimal
digits (any number of them) whose decimal value exceeds 31; success with a
value in `0..31` otherwise. `$r32` and `$r99` fail with `RegisterOutOfRange`,
`$bogus` with `InvalidRegister`. -/
theorem getRegisterValue_outcomes :
    (∀ t : String,
      ((∃ m, getRegisterValue t = .error (.InvalidRegister m)) ↔
        (¬ IsSymbolicName t ∧ ¬ ∃ ds, IsCanonicalForm t ds)) ∧
      ((∃ m, getRegisterValue t = .error (.RegisterOutOfRange m)) ↔
        ∃ ds, IsCanonicalForm t ds ∧ 31 < decimalNumeral ds) ∧
      ((∃ n, n ≤ 31 ∧ getRegisterValue t = .ok n) ↔
        ¬ ((¬ IsSymbolicName t ∧ ¬ ∃ ds, IsCanonicalForm t ds) ∨
          ∃ ds, IsCanonicalForm t ds ∧ 31 < decimalNumeral ds)) ∧
      ((∃ m, getRegisterValue t = .error (.InvalidRegister m)) ∨
        (∃ m, getRegisterValue t = .error (.RegisterOutOfRange m)) ∨
        (∃ n, n ≤ 31 ∧ getRegisterValue t = .ok n))) ∧
    (∃ m, getRegisterValue "$r32" = .error (.RegisterOutOfRange m)) ∧
    (∃ m, getRegisterValue "$r99" = .error (.RegisterOutOfRange m)) ∧
    (∃ m, getRegisterValue "$bogus" = .error (.InvalidRegister m)) := by
  refine ⟨?_, ⟨"0032", by decide⟩, ⟨"0099", by decide⟩, ⟨"$bogus", by decide⟩⟩
  intro t
  rcases getRegisterValue_cases t with
    ⟨hsym, hnc, n, hn, hr⟩ | ⟨hsym, ds, hds, hn, hr⟩ | ⟨hsym, ds, hds, hn, hr⟩ | ⟨hsym, hnc, hr⟩
  · refine ⟨?_, ?_, ?_, Or.inr (Or.inr ⟨n, hn, hr⟩)⟩
    · constructor
      · rintro ⟨m, hm⟩
        rw [hr] at hm
        cases hm
      · rintro ⟨h1, _⟩
        exact absurd hsym h1
    · constructor
      · rintro ⟨m, hm⟩
        rw [hr] at hm
        cases hm
      · rintro ⟨es, hes, _⟩
        exact absurd ⟨es, hes⟩ hnc
    · constructor
      · rintro _ (⟨h1, _⟩ | ⟨es, hes, _⟩)
        · exact h1 hsym
        · exact hnc ⟨es, hes⟩
      · intro _
        exact ⟨n, hn, hr⟩
  · refine ⟨?_, ?_, ?_, Or.inr (Or.inr ⟨_, hn, hr⟩)⟩
    · constructor
      · rintro ⟨m, hm⟩
        rw [hr] at hm
        cases hm
      · rintro ⟨_, h2⟩
        exact absurd ⟨ds, hds⟩ h2
    · constructor
      · rintro ⟨m, hm⟩
        rw [hr] at hm
        cases hm
      · rintro ⟨es, hes, hlt⟩
        rw [← canonicalForm_unique hds hes] at hlt
        omega
    · constructor
      · rintro _ (⟨_, h2⟩ | ⟨es, hes, hlt⟩)
        · exact h2 ⟨ds, hds⟩
        · rw [← canonicalForm_unique hds hes] at hlt
          omega
      · intro _
        exact ⟨_, hn, hr⟩
  · refine ⟨?_, ?_, ?_, Or.inr (Or.inl ⟨_, hr⟩)⟩
    · constructor
      · rintro ⟨m, hm⟩
        rw [hr] at hm
        cases hm
      · rintro ⟨_, h2⟩
        exact absurd ⟨ds, hds⟩ h2
    · constructor
      · intro _
        exact ⟨ds, hds, hn⟩
      · intro _
        exact ⟨_, hr⟩
    · constructor
      · rintro ⟨n, _, hm⟩
        rw [hr] at hm
        cases hm
      · intro h
        exact absurd (Or.inr ⟨ds, hds, hn⟩) h
  · refine ⟨?_, ?_, ?_, Or.inl ⟨_, hr⟩⟩
    · constructor
      · intro _
        exact ⟨hsym, hnc⟩
      · intro _
        exact ⟨_, hr⟩
    · constructor
      · rintro ⟨m, hm⟩
        rw [hr] at hm
        cases hm
      · rintro ⟨es, hes, _⟩
        exact absurd ⟨es, hes⟩ hnc
    · constructor
      · rintro ⟨n, _, hm⟩
        rw [hr] at hm
        cases hm
      · intro h
        exact absurd (Or.inl ⟨hsym, hnc⟩) h

/-- Witness for C7: the three characterisations at the token `$r32`, which is
`$r` followed by the digits `32` of value 32. -/
theorem getRegisterValue_outcomes_witness :
    (∃ m, getRegisterValue "$r32" = .error (.RegisterOutOfRange m)) ∧
    ¬ (∃ m, getRegisterValue "$r32" = .error (.InvalidRegister m)) ∧
    ¬ (∃ n, n ≤ 31 ∧ getRegisterValue "$r32" = .ok n) :=
  have hform : IsCanonicalForm "$r32" ['3', '2'] := ⟨rfl, by decide, by decide⟩
  have hout : ∃ ds, IsCanonicalForm "$r32" ds ∧ 31 < decimalNumeral ds :=
    ⟨['3', '2'], hform, by decide⟩
  ⟨(getRegisterValue_outcomes.1 "$r32").2.1.2 hout,
    fun h => ((getRegisterValue_outcomes.1 "$r32").1.1 h).2 ⟨_, hform⟩,
    fun h => (getRegisterValue_outcomes.1 "$r32").2.2.1.1 h (Or.inr hout)⟩

/-! ## Claims about the immediate parser -/

/-- C8. For every token `s`, `stringToHex s` fails with `InvalidImmediate` if
and only if `s` is not of the exact lexical form `0x` followed by one or more
characters from `0-9`, `a-f`, `A-F` and nothing else. The tokens `20`, the
empty token, `0x`, `0X14` and `0x1g` fail with `InvalidImmediate`; `0x14` does
not. -/
theorem stringToHex_invalid_iff :
    (∀ s : String,
      (∃ m, stringToHex s = .error (.InvalidImmediate m)) ↔ ¬ ∃ ds, IsHexForm s ds) ∧
    stringToHex "20" = .error (.InvalidImmediate "20") ∧
    stringToHex "" = .error (.InvalidImmediate "") ∧
    stringToHex "0x" = .error (.InvalidImmediate "0x") ∧
    stringToHex "0X14" = .error (.InvalidImmediate "0X14") ∧
    stringToHex "0x1g" = .error (.InvalidImmediate "0x1g") ∧
    (¬ ∃ m, stringToHex "0x14" = .error (.InvalidImmediate m)) := by
  refine ⟨?_, by decide, by decide, by decide, by decide, by decide, ?_⟩
  · intro s
    constructor
    · rintro ⟨m, hm⟩ ⟨ds, hds⟩
      rw [stringToHex_of_form hds] at hm
      split at hm <;> cases hm
    · intro h
      have hn : ¬ is_hex_notation s = true := fun hn => h ((is_hex_notation_iff s).1 hn)
      refine ⟨s, ?_⟩
      unfold stringToHex
      rw [if_neg hn]
  · rintro ⟨m, hm⟩
    have h20 : stringToHex "0x14" = .ok 20 := by decide
    rw [h20] at hm
    cases hm

/-- Witness for C8: the token `0x14` has the lexical form, so it does not fail
with `InvalidImmediate`. -/
theorem stringToHex_invalid_iff_witness :
    ¬ ∃ m, stringToHex "0x14" = .error (.InvalidImmediate m) :=
  fun h => (stringToHex_invalid_iff.1 "0x14").1 h ⟨['1', '4'], rfl, by decide, by decide⟩

/-- C9 (as amended). For every token of the form `0x` followed by one or more
hexadecimal digits, of any length and in either letter case, with numeric value
`v`: when `v <= ULONG_MAX` (`2^64 - 1`), `stringToHex` succeeds and returns
`v mod 2^16`; when `v > ULONG_MAX`, `std::stoul` throws `std::out_of_range` and
`stringToHex` returns nothing. Literals of more than 4 digits are covered
(`0x12345` gives `0x2345`), literals of more than 16 digits when their value
fits (`0x00000000000000014` gives 20). `stringToHex "0x14" = 20`. -/
theorem stringToHex_value :
    (∀ (s : String) (v : Nat), IsHexLiteral s v →
      (v ≤ ULONG_MAX → stringToHex s = .ok (v % 2 ^ 16)) ∧
      (ULONG_MAX < v → stringToHex s = .error .StoulOutOfRange)) ∧
    ULONG_MAX = 2 ^ 64 - 1 ∧
    stringToHex "0x14" = .ok 20 ∧
    stringToHex "0x12345" = .ok 0x2345 ∧
    stringToHex "0xAbCd" = .ok 0xABCD ∧
    stringToHex "0x00000000000000014" = .ok 20 := by
  refine ⟨?_, rfl, by decide, by decide, by decide, by decide⟩
  rintro s v ⟨ds, hform, hval⟩
  rw [stringToHex_of_form hform, hval]
  constructor
  · intro hv
    rw [if_pos hv]
  · intro hv
    rw [if_neg (by omega)]

/-- Witness for C9: the general statement at the five-digit literal `0x12345`
of value `0x12345`. -/
theorem stringToHex_value_witness :
    stringToHex "0x12345" = .ok (0x12345 % 2 ^ 16) :=
  (stringToHex_value.1 "0x12345" 0x12345
    ⟨['1', '2', '3', '4', '5'], ⟨rfl, by decide, by decide⟩, by decide⟩).1 (by decide)

/-- Counterexample to C9 as stated: `0x10000000000000000` is `0x` followed by
17 hexadecimal digits, of value `2^64`, and `stringToHex` does not succeed on
it: `std::stoul` throws `std::out_of_range`. -/
theorem stringToHex_long_literal_fails :
    IsHexLiteral "0x10000000000000000" (2 ^ 64) ∧
    stringToHex "0x10000000000000000" = .error .StoulOutOfRange ∧
    stringToHex "0x10000000000000000" ≠ .ok (2 ^ 64 % 2 ^ 16) := by
  refine ⟨⟨_, ⟨rfl, by decide, by decide⟩, by decide⟩, by decide, by decide⟩

/-! ## Tokenizer loop -/

theorem isDelimiter_eq_false_iff (c : Char) : isDelimiter c = false ↔ c ≠ ' ' ∧ c ≠ ',' := by
  simp [isDelimiter]

theorem is_whitespace_of_no_delimiter (aux : String)
    (haux : ∀ c ∈ aux.data, isDelimiter c = false) :
    is_whitespace aux = true ↔ aux.data = [] := by
  unfold is_whitespace
  constructor
  · intro h
    rw [List.all_eq_true] at h
    cases hd : aux.data with
    | nil => rfl
    | cons c cs =>
      have hc : c ∈ aux.data := by rw [hd]; exact List.mem_cons_self c cs
      have h1 := h c hc
      have h2 := ((isDelimiter_eq_false_iff c).1 (haux c hc)).1
      simp only [beq_iff_eq] at h1
      exact absurd h1 h2
  · intro h
    rw [h]
    rfl

theorem pushField_eq (fields : List String) (aux : String)
    (haux : ∀ c ∈ aux.data, isDelimiter c = false) :
    pushField fields aux =
      fields ++ (([aux.data].filter (fun run => decide (run ≠ []))).map
        (fun run => String.mk (run.map Char.toLower))) := by
  unfold pushField
  by_cases h : aux.data = []
  · have hw : is_whitespace aux = true := (is_whitespace_of_no_delimiter aux haux).2 h
    simp [hw, h]
  · have hw : is_whitespace aux = false := by
      rw [← Bool.not_eq_true]
      exact fun hw => h ((is_whitespace_of_no_delimiter aux haux).1 hw)
    simp [hw, h, transform_tolower]

theorem extract_loop (cs : List Char) :
    ∀ (fields : List String) (aux : String),
      (∀ c ∈ aux.data, isDelimiter c = false) →
      pushField (cs.foldl extractStep (fields, aux)).1 (cs.foldl extractStep (fields, aux)).2 =
        fields ++ (((List.modifyHead (fun run => aux.data ++ run)
          (cs.splitOnP isDelimiter)).filter (fun run => decide (run ≠ []))).map
            (fun run => String.mk (run.map Char.toLower))) := by
  induction cs with
  | nil =>
    intro fields aux haux
    simp only [List.foldl_nil, List.splitOnP_nil, List.modifyHead_cons, List.append_nil]
    exact pushField_eq fields aux haux
  | cons x xs ih =>
    intro fields aux haux
    rw [List.foldl_cons, List.splitOnP_cons]
    by_cases hx : isDelimiter x = true
    · have hstep : extractStep (fields, aux) x = (pushField fields aux, "") := by
        have hx2 : x = ',' ∨ x = ' ' := by
          simp only [isDelimiter, Bool.or_eq_true, beq_iff_eq] at hx
          exact hx.symm
        simp only [extractStep, if_pos hx2]
      rw [hstep, if_pos hx, ih _ "" (by intro c hc; cases hc), pushField_eq fields aux haux]
      have hnil : "".data = [] := rfl
      simp only [hnil, List.nil_append, List.modifyHead_cons, List.append_nil,
        List.filter_cons, List.filter_nil, List.map_append, List.append_assoc]
      congr 1
      have hid : List.modifyHead (fun run : List Char => run) (List.splitOnP isDelimiter xs) =
          List.splitOnP isDelimiter xs := by
        cases List.splitOnP isDelimiter xs <;> rfl
      rw [hid]
      split <;> simp
    · have hx1 : isDelimiter x = false := by simpa using hx
      have hstep : extractStep (fields, aux) x = (fields, String.mk (aux.data ++ [x])) := by
        have hx2 : ¬ (x = ',' ∨ x = ' ') := by
          have h3 := (isDelimiter_eq_false_iff x).1 hx1
          rintro (h | h)
          · exact h3.2 h
          · exact h3.1 h
        simp only [extractStep, if_neg hx2]
      have haux2 : ∀ c ∈ (String.mk (aux.data ++ [x])).data, isDelimiter c = false := by
        intro c hc
        simp only [List.mem_append, List.mem_singleton] at hc
        rcases hc with hc | rfl
        · exact haux c hc
        · exact hx1
      rw [hstep, if_neg hx, ih _ _ haux2, List.modifyHead_modifyHead]
      congr 4
      funext run
      simp

/-- The tokenizer returns the lowercased maximal runs of the line. -/
theorem extractInstructionEntities_eq_lowercaseRuns (line : String) :
    extractInstructionEntities line = lowercaseRuns line := by
  have h := extract_loop line.data [] "" (by intro c hc; cases hc)
  have hnil : "".data = [] := rfl
  have hid : List.modifyHead (fun run : List Char => [] ++ run)
      (List.splitOnP isDelimiter line.data) = List.splitOnP isDelimiter line.data := by
    cases List.splitOnP isDelimiter line.data <;> rfl
  rw [hnil, hid, List.nil_append] at h
  unfold extractInstructionEntities lowercaseRuns maximalRuns
  exact h

theorem toLower_cases (c : Char) :
    c.toLower = c ∧ ¬ (65 ≤ c.toNat ∧ c.toNat ≤ 90) ∨
    (97 ≤ c.toLower.toNat ∧ c.toLower.toNat ≤ 122) := by
  by_cases h : 65 ≤ c.toNat ∧ c.toNat ≤ 90
  · right
    have hl : c.toLower = Char.ofNat (c.toNat + 32) := by
      unfold Char.toLower
      simp only [ge_iff_le]
      rw [if_pos h]
    rw [hl]
    generalize c.toNat = n at h
    obtain ⟨h1, h2⟩ := h
    interval_cases n <;> decide
  · left
    refine ⟨?_, h⟩
    unfold Char.toLower
    simp only [ge_iff_le]
    rw [if_neg h]

theorem toLower_not_upper (c : Char) : ¬ ('A' ≤ c.toLower ∧ c.toLower ≤ 'Z') := by
  have eA : 'A'.toNat = 65 := by decide
  have eZ : 'Z'.toNat = 90 := by decide
  rw [char_le_iff, char_le_iff, eA, eZ]
  rcases toLower_cases c with ⟨h1, h2⟩ | h
  · rw [h1]
    exact h2
  · omega

theorem toLower_not_delimiter (c : Char) (hc : isDelimiter c = false) :
    c.toLower ≠ ' ' ∧ c.toLower ≠ ',' := by
  rcases toLower_cases c with ⟨h1, _⟩ | h
  · rw [h1]
    exact (isDelimiter_eq_false_iff c).1 hc
  · constructor
    · intro he
      rw [he] at h
      exact absurd h (by decide)
    · intro he
      rw [he] at h
      exact absurd h (by decide)

theorem splitOnP_no_delimiter (l : List Char) :
    ∀ run ∈ l.splitOnP isDelimiter, ∀ c ∈ run, isDelimiter c = false := by
  induction l with
  | nil =>
    intro run hrun c hc
    simp only [List.splitOnP_nil, List.mem_singleton] at hrun
    rw [hrun] at hc
    cases hc
  | cons x xs ih =>
    intro run hrun c hc
    rw [List.splitOnP_cons] at hrun
    by_cases hx : isDelimiter x = true
    · rw [if_pos hx] at hrun
      simp only [List.mem_cons] at hrun
      rcases hrun with rfl | hrun
      · cases hc
      · exact ih run hrun c hc
    · rw [if_neg hx] at hrun
      cases hs : List.splitOnP isDelimiter xs with
      | nil =>
        rw [hs] at hrun
        simp at hrun
      | cons r rs =>
        rw [hs, List.modifyHead_cons] at hrun
        rw [hs] at ih
        simp only [List.mem_cons] at hrun
        rcases hrun with rfl | hrun
        · simp only [List.mem_cons] at hc
          rcases hc with rfl | hc
          · simpa using hx
          · exact ih r (List.mem_cons_self r rs) c hc
        · exact ih run (List.mem_cons_of_mem r hrun) c hc

theorem lowercaseRuns_fields (line : String) :
    ∀ f ∈ lowercaseRuns line,
      f.data ≠ [] ∧ ∀ c ∈ f.data, c ≠ ' ' ∧ c ≠ ',' ∧ ¬ ('A' ≤ c ∧ c ≤ 'Z') := by
  intro f hf
  unfold lowercaseRuns maximalRuns at hf
  simp only [List.mem_map, List.mem_filter, decide_eq_true_eq] at hf
  obtain ⟨run, ⟨hrun, hne⟩, rfl⟩ := hf
  constructor
  · simpa using hne
  · intro c hc
    simp only [List.mem_map] at hc
    obtain ⟨b, hb, rfl⟩ := hc
    have hd := toLower_not_delimiter b (splitOnP_no_delimiter line.data run hrun b hb)
    exact ⟨hd.1, hd.2, toLower_not_upper b⟩

theorem extract_only_delimiters (cs : List Char) (h : ∀ c ∈ cs, isDelimiter c = true)
    (fields : List String) :
    cs.foldl extractStep (fields, "") = (fields, "") := by
  induction cs with
  | nil => rfl
  | cons x xs ih =>
    have hx : x = ',' ∨ x = ' ' := by
      have h1 := h x (List.mem_cons_self x xs)
      simp only [isDelimiter, Bool.or_eq_true, beq_iff_eq] at h1
      exact h1.symm
    have hstep : extractStep (fields, "") x = (fields, "") := by
      simp only [extractStep, if_pos hx]
      rfl
    rw [List.foldl_cons, hstep]
    exact ih (fun c hc => h c (List.mem_cons_of_mem x hc))

theorem extract_last_field (init run : List Char) (d : Char) (hd : isDelimiter d = true)
    (hne : run ≠ []) (hrun : ∀ c ∈ run, isDelimiter c = false) :
    extractInstructionEntities (String.mk (init ++ d :: run)) =
      extractInstructionEntities (String.mk init) ++ [String.mk (run.map Char.toLower)] := by
  have hd2 : d = ',' ∨ d = ' ' := by
    simp only [isDelimiter, Bool.or_eq_true, beq_iff_eq] at hd
    exact hd.symm
  have hsingle : List.splitOnP isDelimiter run = [run] :=
    List.splitOnP_eq_single isDelimiter run (fun c hc => by simp [hrun c hc])
  have hloop := extract_loop run
    (pushField (init.foldl extractStep ([], "")).1 (init.foldl extractStep ([], "")).2) ""
    (by intro c hc; cases hc)
  have hnil : "".data = [] := rfl
  rw [hsingle, hnil] at hloop
  simp only [List.modifyHead_cons, List.nil_append, List.filter_cons, hne, ne_eq,
    not_false_eq_true, decide_True, if_true, List.filter_nil, List.map_cons, List.map_nil]
    at hloop
  unfold extractInstructionEntities
  simp only [List.foldl_append, List.foldl_cons]
  have hstep : extractStep (init.foldl extractStep ([], "")) d =
      (pushField (init.foldl extractStep ([], "")).1 (init.foldl extractStep ([], "")).2, "") := by
    simp only [extractStep, if_pos hd2]
  rw [hstep]
  exact hloop

/-! ## Claims about the tokenizer -/

/-- C10. For every line, `extractInstructionEntities line` is the list, left to
right, of the maximal non-empty runs of characters other than the space and the
comma, each mapped through ASCII lowercase. Hence no field is empty, no field
contains a space, a comma or an uppercase ASCII letter; a line made only of
spaces and commas (in particular the empty line) yields the empty list; and a
last run that no delimiter follows is still emitted, after the fields of what
precedes its delimiter. The line `  ADD   $v1, $v0,  $at ` yields exactly
`["add", "$v1", "$v0", "$at"]`. -/
theorem tokenizer_fields :
    (∀ line : String,
      extractInstructionEntities line = lowercaseRuns line ∧
      (∀ f ∈ extractInstructionEntities line,
        f.data ≠ [] ∧ ∀ c ∈ f.data, c ≠ ' ' ∧ c ≠ ',' ∧ ¬ ('A' ≤ c ∧ c ≤ 'Z')) ∧
      ((∀ c ∈ line.data, c = ' ' ∨ c = ',') → extractInstructionEntities line = [])) ∧
    (∀ (init run : List Char) (d : Char), (d = ' ' ∨ d = ',') → run ≠ [] →
      (∀ c ∈ run, c ≠ ' ' ∧ c ≠ ',') →
      extractInstructionEntities (String.mk (init ++ d :: run)) =
        extractInstructionEntities (String.mk init) ++ [String.mk (run.map Char.toLower)]) ∧
    extractInstructionEntities "  ADD   $v1, $v0,  $at " = ["add", "$v1", "$v0", "$at"] := by
  refine ⟨?_, ?_, by decide⟩
  · intro line
    refine ⟨extractInstructionEntities_eq_lowercaseRuns line, ?_, ?_⟩
    · rw [extractInstructionEntities_eq_lowercaseRuns]
      exact lowercaseRuns_fields line
    · intro h
      have hd : ∀ c ∈ line.data, isDelimiter c = true := by
        intro c hc
        rcases h c hc with rfl | rfl <;> decide
      unfold extractInstructionEntities
      rw [extract_only_delimiters line.data hd []]
      rfl
  · intro init run d hd hne hrun
    refine extract_last_field init run d ?_ hne ?_
    · rcases hd with rfl | rfl <;> decide
    · intro c hc
      exact (isDelimiter_eq_false_iff c).2 (hrun c hc)

/-- Witness for C10: the line ` , ` of delimiters only yields no field, and in
`JR $ra` the last run `$ra`, which no delimiter follows, is emitted after the
fields of `JR`. -/
theorem tokenizer_fields_witness :
    extractInstructionEntities " , " = [] ∧
    extractInstructionEntities (String.mk (['J', 'R'] ++ ' ' :: ['$', 'r', 'a'])) =
      extractInstructionEntities (String.mk ['J', 'R']) ++
        [String.mk (['$', 'r', 'a'].map Char.toLower)] :=
  ⟨(tokenizer_fields.1 " , ").2.2 (by decide),
    tokenizer_fields.2.1 ['J', 'R'] ['$', 'r', 'a'] ' ' (Or.inl rfl) (by decide) (by decide)⟩

/-! ## The scan of a memory operand -/

/-- The result of the scan from any state of the loop: the scan ends at the
first `)`; before it, every `(` is skipped, the characters before the first `(`
go to the offset and the other characters to the base. -/
theorem splitMemoryOperand_eq (token : List Char) :
    ∀ (offset base : List Char) (captureBase : Bool),
      splitMemoryOperand token offset base captureBase =
        if captureBase then
          (offset, base ++ (token.takeWhile (fun c => c != ')')).filter (fun c => c != '('))
        else
          (offset ++ (token.takeWhile (fun c => c != ')')).takeWhile (fun c => c != '('),
            base ++ ((token.takeWhile (fun c => c != ')')).dropWhile
              (fun c => c != '(')).filter (fun c => c != '(')) := by
  induction token with
  | nil =>
    intro offset base captureBase
    cases captureBase <;> simp [splitMemoryOperand]
  | cons chr rest ih =>
    intro offset base captureBase
    by_cases h1 : chr = '('
    · subst h1
      rw [splitMemoryOperand, if_pos rfl, ih]
      cases captureBase <;> simp
    · by_cases h2 : chr = ')'
      · subst h2
        rw [splitMemoryOperand, if_neg h1, if_pos rfl]
        cases captureBase <;> simp
      · rw [splitMemoryOperand, if_neg h1, if_neg h2]
        cases captureBase
        · simp only [Bool.false_eq_true, if_false]
          rw [ih]
          simp [h1, h2]
        · simp only [if_true]
          rw [ih]
          simp [h1, h2]

theorem splitMemoryOperand_no_open (token : List Char) (h : ∀ c ∈ token, c ≠ '(') :
    splitMemoryOperand token [] [] false = (token.takeWhile (fun c => c != ')'), []) := by
  rw [splitMemoryOperand_eq]
  have hp : ∀ c ∈ token.takeWhile (fun c => c != ')'), (c != '(') = true := by
    intro c hc
    have hm := List.takeWhile_subset (fun c => c != ')') hc
    simpa using h c hm
  simp only [Bool.false_eq_true, if_false, List.nil_append]
  rw [List.takeWhile_eq_self_iff.2 hp, List.dropWhile_eq_nil_iff.2 hp]
  rfl

theorem splitMemoryOperand_unclosed (off base : List Char)
    (hoff : ∀ c ∈ off, c ≠ '(' ∧ c ≠ ')') (hbase : ∀ c ∈ base, c ≠ '(' ∧ c ≠ ')') :
    splitMemoryOperand (off ++ '(' :: base) [] [] false = (off, base) := by
  have h := splitMemoryOperand_base base [] off [] hbase
  rw [List.append_nil, List.nil_append] at h
  rw [splitMemoryOperand_offset off _ [] [] hoff, splitMemoryOperand, if_pos rfl,
    List.nil_append, h]
  rfl

/-! ## Claims about the memory-operand split -/

/-- C11 (as amended). For every token that contains `(`, in which no `)` stands
before the first `(` and no further `(` stands between the first `(` and the
first `)` after it, the split of `getMemoryAccessFields` yields as offset text
exactly the characters preceding the first `(` and as base text exactly the
characters between that `(` and the first `)` after it (up to the end of the
token when there is no `)`); the characters after that `)` are ignored. The
token `0x08($zero)` splits into offset `0x08` and base `$zero`. -/
theorem memory_split_with_paren :
    (∀ token : List Char, '(' ∈ token →
      (∀ c ∈ offsetBeforeParen token, c ≠ ')') →
      (∀ c ∈ baseBetweenParens token, c ≠ '(') →
      splitMemoryOperand token [] [] false =
        (offsetBeforeParen token, baseBetweenParens token)) ∧
    (∀ off base tail : List Char,
      (∀ c ∈ off, c ≠ '(' ∧ c ≠ ')') → (∀ c ∈ base, c ≠ '(' ∧ c ≠ ')') →
      splitMemoryOperand (off ++ '(' :: (base ++ ')' :: tail)) [] [] false = (off, base)) ∧
    splitMemoryOperand "0x08($zero)".data [] [] false = ("0x08".data, "$zero".data) := by
  refine ⟨?_, splitMemoryOperand_wellFormed, by decide⟩
  intro token hmem hoff hbase
  unfold offsetBeforeParen baseBetweenParens at *
  have hsplit := List.takeWhile_append_dropWhile (fun c => c != '(') token
  have hoff2 : ∀ c ∈ token.takeWhile (fun c => c != '('), c ≠ '(' ∧ c ≠ ')' := by
    intro c hc
    have h1 := List.mem_takeWhile_imp hc
    exact ⟨by simpa using h1, hoff c hc⟩
  cases hdw : token.dropWhile (fun c => c != '(') with
  | nil =>
    have hall := List.dropWhile_eq_nil_iff.1 hdw '(' hmem
    simp at hall
  | cons x rest =>
    have hx : x = '(' := by
      have hne : token.dropWhile (fun c => c != '(') ≠ [] := by rw [hdw]; simp
      have h1 := List.head_dropWhile_not (fun c => c != '(') token hne
      simp only [hdw, List.head_cons] at h1
      simpa using h1
    subst hx
    rw [hdw] at hsplit hbase
    simp only [List.drop_succ_cons, List.drop_zero] at hbase ⊢
    have hbase2 : ∀ c ∈ rest.takeWhile (fun c => c != ')'), c ≠ '(' ∧ c ≠ ')' := by
      intro c hc
      have h1 := List.mem_takeWhile_imp hc
      exact ⟨hbase c hc, by simpa using h1⟩
    have hrest := List.takeWhile_append_dropWhile (fun c => c != ')') rest
    have htoken : token = token.takeWhile (fun c => c != '(') ++
        '(' :: (rest.takeWhile (fun c => c != ')') ++ rest.dropWhile (fun c => c != ')')) := by
      rw [hrest]
      exact hsplit.symm
    cases htl : rest.dropWhile (fun c => c != ')') with
    | nil =>
      rw [htl, List.append_nil] at htoken
      have h := splitMemoryOperand_unclosed _ _ hoff2 hbase2
      rw [← htoken] at h
      exact h
    | cons y tail =>
      have hy : y = ')' := by
        have hne : rest.dropWhile (fun c => c != ')') ≠ [] := by rw [htl]; simp
        have h1 := List.head_dropWhile_not (fun c => c != ')') rest hne
        simp only [htl, List.head_cons] at h1
        simpa using h1
      subst hy
      rw [htl] at htoken
      have h := splitMemoryOperand_wellFormed _ _ tail hoff2 hbase2
      rw [← htoken] at h
      exact h

/-- Witness for C11: the general statement at the token `0x08($zero)`. -/
theorem memory_split_with_paren_witness :
    splitMemoryOperand "0x08($zero)".data [] [] false =
      (offsetBeforeParen "0x08($zero)".data, baseBetweenParens "0x08($zero)".data) :=
  memory_split_with_paren.1 "0x08($zero)".data (by decide) (by decide) (by decide)

/-- Counterexample to C11 as stated: in `0x08(($zero)` the base text between
the first `(` and the first `)` is `($zero`, but the split yields `$zero` (a
second `(` is skipped); in `0x)08($zero)` the characters preceding the first
`(` are `0x)08`, but the split yields offset `0x` and an empty base (the scan
ends at the first `)`). -/
theorem memory_split_with_paren_differs :
    '(' ∈ "0x08(($zero)".data ∧
    baseBetweenParens "0x08(($zero)".data = "($zero".data ∧
    splitMemoryOperand "0x08(($zero)".data [] [] false = ("0x08".data, "$zero".data) ∧
    '(' ∈ "0x)08($zero)".data ∧
    offsetBeforeParen "0x)08($zero)".data = "0x)08".data ∧
    baseBetweenParens "0x)08($zero)".data = "$zero".data ∧
    splitMemoryOperand "0x)08($zero)".data [] [] false = ("0x".data, []) := by
  decide

/-- C12 (as amended). For every token that contains no `(` character, the split
of `getMemoryAccessFields` yields the empty string as base text and, as offset
text, the characters preceding the first `)`: the whole token when it contains
no `)` either. -/
theorem memory_split_without_paren :
    (∀ token : List Char, (∀ c ∈ token, c ≠ '(') →
      splitMemoryOperand token [] [] false = (token.takeWhile (fun c => c != ')'), [])) ∧
    (∀ token : List Char, (∀ c ∈ token, c ≠ '(') → (∀ c ∈ token, c ≠ ')') →
      splitMemoryOperand token [] [] false = (token, [])) ∧
    splitMemoryOperand "0x08".data [] [] false = ("0x08".data, []) := by
  refine ⟨splitMemoryOperand_no_open, ?_, by decide⟩
  intro token h1 h2
  rw [splitMemoryOperand_no_open token h1]
  have hp : ∀ c ∈ token, (c != ')') = true := by
    intro c hc
    simpa using h2 c hc
  rw [List.takeWhile_eq_self_iff.2 hp]

/-- Witness for C12: the general statement at the token `0x08`. -/
theorem memory_split_without_paren_witness :
    splitMemoryOperand "0x08".data [] [] false = ("0x08".data, []) :=
  memory_split_without_paren.2.1 "0x08".data (by decide) (by decide)

/-- Counterexample to C12 as stated: the token `0x08)` contains no `(`, and the
split yields the offset `0x08`, not the whole token. -/
theorem memory_split_without_paren_differs :
    (∀ c ∈ "0x08)".data, c ≠ '(') ∧
    splitMemoryOperand "0x08)".data [] [] false = ("0x08".data, []) ∧
    splitMemoryOperand "0x08)".data [] [] false ≠ ("0x08)".data, []) := by
  decide

/-! ## Failure kinds of the encoder -/

theorem operandOnly_pure {α : Type} (a : α) : OperandOnly (pure a : Except MIPSError α) := by
  intro e h
  cases h

theorem operandOnly_bind {α β : Type} {x : Except MIPSError α} {f : α → Except MIPSError β}
    (hx : OperandOnly x) (hf : ∀ a, OperandOnly (f a)) : OperandOnly (x >>= f) := by
  intro e h
  cases x with
  | error e1 =>
    have h1 : e1 = e := by
      simp only [bind, Except.bind] at h
      exact Except.error.inj h
    exact h1 ▸ hx e1 rfl
  | ok a => exact hf a e h

theorem operandOnly_rnumber_register (t : String) : OperandOnly (rnumber_register t) := by
  intro e h
  unfold rnumber_register at h
  split at h
  · simp only at h
    split at h
    · cases h
    · cases h
      rfl
  · cases h
    rfl

theorem operandOnly_getRegisterValue (t : String) : OperandOnly (getRegisterValue t) := by
  unfold getRegisterValue
  split <;> exact operandOnly_rnumber_register _

theorem operandOnly_stringToHex (s : String) : OperandOnly (stringToHex s) := by
  intro e h
  unfold stringToHex stoul_16 at h
  split at h
  · simp only at h
    split at h
    · cases h
    · cases h
      rfl
  · cases h
    rfl

theorem operandOnly_vectorAt (fields : List String) (i : Nat) :
    OperandOnly (vectorAt fields i) := by
  intro e h
  unfold vectorAt at h
  split at h
  · cases h
  · cases h
    rfl

theorem operandOnly_mapAt (table : List (String × Nat)) (key : String) :
    OperandOnly (mapAt table key) := by
  intro e h
  unfold mapAt at h
  split at h
  · cases h
  · cases h
    rfl

theorem operandOnly_getMemoryAccessFields (fields : List String) :
    OperandOnly (getMemoryAccessFields fields) := by
  unfold getMemoryAccessFields
  refine operandOnly_bind (operandOnly_vectorAt _ _) (fun _ => ?_)
  refine operandOnly_bind (operandOnly_mapAt _ _) (fun _ => ?_)
  refine operandOnly_bind (operandOnly_vectorAt _ _) (fun _ => ?_)
  refine operandOnly_bind (operandOnly_getRegisterValue _) (fun _ => ?_)
  refine operandOnly_bind (operandOnly_vectorAt _ _) (fun _ => ?_)
  refine operandOnly_bind (operandOnly_getRegisterValue _) (fun _ => ?_)
  refine operandOnly_bind (operandOnly_stringToHex _) (fun _ => ?_)
  exact operandOnly_pure _

theorem operandOnly_generateRType (fields : List String) (op : String) (f : Nat)
    (hlen : fields.length = 4 ∨ fields.length = 2) :
    OperandOnly (generateRType fields op f) := by
  unfold generateRType
  rw [if_neg (not_not.2 hlen)]
  split
  · refine operandOnly_bind (operandOnly_vectorAt _ _) (fun _ => ?_)
    refine operandOnly_bind (operandOnly_getRegisterValue _) (fun _ => ?_)
    exact operandOnly_pure _
  · refine operandOnly_bind (operandOnly_vectorAt _ _) (fun _ => ?_)
    refine operandOnly_bind (operandOnly_getRegisterValue _) (fun _ => ?_)
    refine operandOnly_bind (operandOnly_vectorAt _ _) (fun _ => ?_)
    refine operandOnly_bind (operandOnly_getRegisterValue _) (fun _ => ?_)
    refine operandOnly_bind (operandOnly_vectorAt _ _) (fun _ => ?_)
    refine operandOnly_bind (operandOnly_getRegisterValue _) (fun _ => ?_)
    exact operandOnly_pure _

theorem generateRType_of_bad_count (fields : List String) (op : String) (f : Nat)
    (hlen : ¬ (fields.length = 4 ∨ fields.length = 2)) :
    generateRType fields op f =
      .error (.MalformedOperandCount "R type instructions must have 4 or 2 fields") := by
  unfold generateRType
  rw [if_pos hlen]

theorem operandOnly_generateIType (fields : List String) (op : String) (o : Nat)
    (hlen : (op = "lw" ∨ op = "sw") → 3 ≤ fields.length) :
    OperandOnly (generateIType fields op o) := by
  unfold generateIType
  by_cases hmem : op = "lw" ∨ op = "sw"
  · have h3 : ¬ fields.length < 3 := by have := hlen hmem; omega
    simp only [if_pos hmem, if_neg h3]
    refine operandOnly_bind (operandOnly_getMemoryAccessFields _) (fun _ => ?_)
    exact operandOnly_pure _
  · simp only [if_neg hmem]
    split
    · refine operandOnly_bind (operandOnly_vectorAt _ _) (fun _ => ?_)
      refine operandOnly_bind (operandOnly_getRegisterValue _) (fun _ => ?_)
      refine operandOnly_bind (operandOnly_vectorAt _ _) (fun _ => ?_)
      refine operandOnly_bind (operandOnly_stringToHex _) (fun _ => ?_)
      exact operandOnly_pure _
    · refine operandOnly_bind (operandOnly_vectorAt _ _) (fun _ => ?_)
      refine operandOnly_bind (operandOnly_getRegisterValue _) (fun _ => ?_)
      refine operandOnly_bind (operandOnly_vectorAt _ _) (fun _ => ?_)
      refine operandOnly_bind (operandOnly_getRegisterValue _) (fun _ => ?_)
      refine operandOnly_bind (operandOnly_vectorAt _ _) (fun _ => ?_)
      refine operandOnly_bind (operandOnly_stringToHex _) (fun _ => ?_)
      exact operandOnly_pure _

theorem generateIType_of_short_memory (fields : List String) (op : String) (o : Nat)
    (hmem : op = "lw" ∨ op = "sw") (hlen : fields.length < 3) :
    generateIType fields op o =
      .error (.MalformedOperandCount "I type instructions must have at least 3 fields") := by
  unfold generateIType
  simp only [if_pos hmem, if_pos hlen]

/-! ## Dispatch on the mnemonic -/

theorem generateMachineCode_of_R (op f1 : String) (rest : List String) (f : Nat)
    (hR : R_function_codes.lookup op = some f) :
    generateMachineCode (op :: f1 :: rest) = generateRType (op :: f1 :: rest) op f := by
  simp [generateMachineCode, vectorAt, hR, bind, Except.bind]

theorem generateMachineCode_of_I (op f1 : String) (rest : List String) (o : Nat)
    (hR : R_function_codes.lookup op = none) (hI : I_op_codes.lookup op = some o) :
    generateMachineCode (op :: f1 :: rest) = generateIType (op :: f1 :: rest) op o := by
  simp [generateMachineCode, vectorAt, hR, hI, bind, Except.bind]

theorem generateMachineCode_of_J (op f1 : String) (rest : List String)
    (hR : R_function_codes.lookup op = none) (hI : I_op_codes.lookup op = none)
    (hJ : op = J_op_code) :
    generateMachineCode (op :: f1 :: rest) = .ok 1 := by
  subst hJ
  simp [generateMachineCode, vectorAt, hR, hI, bind, Except.bind, pure, Except.pure]

theorem generateMachineCode_of_unknown (op f1 : String) (rest : List String)
    (hR : R_function_codes.lookup op = none) (hI : I_op_codes.lookup op = none)
    (hJ : op ≠ J_op_code) :
    generateMachineCode (op :: f1 :: rest) = .error (.UnknownOpcode op) := by
  simp [generateMachineCode, vectorAt, hR, hI, hJ, bind, Except.bind]

theorem generateRType_not_unknown (fields : List String) (op : String) (f : Nat) (m : String) :
    generateRType fields op f ≠ .error (.UnknownOpcode m) := by
  intro h
  by_cases hlen : fields.length = 4 ∨ fields.length = 2
  · exact absurd (operandOnly_generateRType fields op f hlen _ h) (by simp [MIPSError.isOperandError])
  · rw [generateRType_of_bad_count fields op f hlen] at h
    cases h

theorem generateIType_not_unknown (fields : List String) (op : String) (o : Nat) (m : String) :
    generateIType fields op o ≠ .error (.UnknownOpcode m) := by
  intro h
  by_cases hlen : (op = "lw" ∨ op = "sw") → 3 ≤ fields.length
  · exact absurd (operandOnly_generateIType fields op o hlen _ h) (by simp [MIPSError.isOperandError])
  · have hmem : op = "lw" ∨ op = "sw" := by
      by_contra hc
      exact hlen (fun h1 => absurd h1 hc)
    have h3 : fields.length < 3 := by
      by_contra hc
      exact hlen (fun _ => by omega)
    rw [generateIType_of_short_memory fields op o hmem h3] at h
    cases h

/-- The four families of first fields: a key of `R_function_codes`, a key of
`I_op_codes`, `J_op_code`, anything else. -/
theorem mnemonic_cases (op : String) :
    (op ∈ ["add", "sub", "and", "or", "slt", "jr"] ∧
      ∃ f, R_function_codes.lookup op = some f) ∨
    (op ∈ ["lw", "sw", "beq", "addi", "ori", "lui"] ∧
      R_function_codes.lookup op = none ∧ ∃ o, I_op_codes.lookup op = some o) ∨
    (op = "j" ∧ R_function_codes.lookup op = none ∧ I_op_codes.lookup op = none) ∨
    (op ∉ ["add", "sub", "and", "or", "slt", "jr", "lw", "sw", "beq", "addi", "ori", "lui",
        "j"] ∧
      R_function_codes.lookup op = none ∧ I_op_codes.lookup op = none ∧ op ≠ J_op_code) := by
  have hR : R_function_codes.map Prod.fst = ["add", "sub", "and", "or", "slt", "jr"] := rfl
  have hI : I_op_codes.map Prod.fst = ["lw", "sw", "beq", "addi", "ori", "lui"] := rfl
  by_cases h1 : op ∈ R_function_codes.map Prod.fst
  · left
    obtain ⟨f, hf, _⟩ := lookup_of_mem_keys op R_function_codes h1
    exact ⟨hR ▸ h1, f, hf⟩
  · have hRn := lookup_none_of_not_mem op R_function_codes h1
    right
    by_cases h2 : op ∈ I_op_codes.map Prod.fst
    · left
      obtain ⟨o, ho, _⟩ := lookup_of_mem_keys op I_op_codes h2
      exact ⟨hI ▸ h2, hRn, o, ho⟩
    · have hIn := lookup_none_of_not_mem op I_op_codes h2
      right
      by_cases h3 : op = "j"
      · left
        exact ⟨h3, hRn, hIn⟩
      · right
        refine ⟨?_, hRn, hIn, h3⟩
        rw [hR] at h1
        rw [hI] at h2
        simp only [List.mem_cons, List.mem_singleton, List.mem_nil_iff, or_false, not_or]
          at h1 h2 ⊢
        exact ⟨h1.1, h1.2.1, h1.2.2.1, h1.2.2.2.1, h1.2.2.2.2.1, h1.2.2.2.2.2,
          h2.1, h2.2.1, h2.2.2.1, h2.2.2.2.1, h2.2.2.2.2.1, h2.2.2.2.2.2, h3⟩

/-! ## Claims about the dispatch -/

/-- C13. For every field list with at least 2 fields, `generateMachineCode`
fails with `UnknownOpcode` if and only if the first field is none of `add, sub,
and, or, slt, jr, lw, sw, beq, addi, ori, lui, j`; the failure then carries the
first field and happens whatever the operands are. The tokens of `FOO $t1, $t2`
fail with `UnknownOpcode` naming `foo`. -/
theorem unknown_opcode_iff :
    (∀ (op f1 : String) (rest : List String),
      ((∃ m, generateMachineCode (op :: f1 :: rest) = .error (.UnknownOpcode m)) ↔
        op ∉ ["add", "sub", "and", "or", "slt", "jr", "lw", "sw", "beq", "addi", "ori",
          "lui", "j"]) ∧
      (op ∉ ["add", "sub", "and", "or", "slt", "jr", "lw", "sw", "beq", "addi", "ori",
          "lui", "j"] →
        generateMachineCode (op :: f1 :: rest) = .error (.UnknownOpcode op))) ∧
    generateMachineCode (extractInstructionEntities "FOO $t1, $t2") =
      .error (.UnknownOpcode "foo") := by
  refine ⟨?_, by decide⟩
  intro op f1 rest
  rcases mnemonic_cases op with ⟨hmem, f, hf⟩ | ⟨hmem, hR, o, ho⟩ | ⟨hj, hR, hI⟩ |
    ⟨hnot, hR, hI, hJ⟩
  · have hin : op ∈ ["add", "sub", "and", "or", "slt", "jr", "lw", "sw", "beq", "addi",
        "ori", "lui", "j"] := by
      simp only [List.mem_cons, List.mem_singleton, List.mem_nil_iff, or_false] at hmem ⊢
      tauto
    refine ⟨⟨?_, fun h => absurd hin h⟩, fun h => absurd hin h⟩
    rintro ⟨m, hm⟩
    rw [generateMachineCode_of_R op f1 rest f hf] at hm
    exact absurd hm (generateRType_not_unknown _ _ _ _)
  · have hin : op ∈ ["add", "sub", "and", "or", "slt", "jr", "lw", "sw", "beq", "addi",
        "ori", "lui", "j"] := by
      simp only [List.mem_cons, List.mem_singleton, List.mem_nil_iff, or_false] at hmem ⊢
      tauto
    refine ⟨⟨?_, fun h => absurd hin h⟩, fun h => absurd hin h⟩
    rintro ⟨m, hm⟩
    rw [generateMachineCode_of_I op f1 rest o hR ho] at hm
    exact absurd hm (generateIType_not_unknown _ _ _ _)
  · have hin : op ∈ ["add", "sub", "and", "or", "slt", "jr", "lw", "sw", "beq", "addi",
        "ori", "lui", "j"] := by
      simp [hj]
    refine ⟨⟨?_, fun h => absurd hin h⟩, fun h => absurd hin h⟩
    rintro ⟨m, hm⟩
    rw [generateMachineCode_of_J op f1 rest hR hI hj] at hm
    cases hm
  · have hu := generateMachineCode_of_unknown op f1 rest hR hI hJ
    exact ⟨⟨fun _ => hnot, fun _ => ⟨op, hu⟩⟩, fun _ => hu⟩

/-- Witness for C13: the general statement at the fields `foo`, `$t1`, `$t2`. -/
theorem unknown_opcode_iff_witness :
    generateMachineCode ["foo", "$t1", "$t2"] = .error (.UnknownOpcode "foo") :=
  (unknown_opcode_iff.1 "foo" "$t1" ["$t2"]).2 (by decide)

/-- C19. For every field list with at least 2 fields whose first field is `j`,
`generateMachineCode` does not fail and returns the word 1, whatever the other
fields are: no operand is read and no jump target is encoded. -/
theorem jump_placeholder :
    ∀ (f1 : String) (rest : List String), generateMachineCode ("j" :: f1 :: rest) = .ok 1 := by
  intro f1 rest
  exact generateMachineCode_of_J "j" f1 rest (by decide) (by decide) rfl

/-! ## Claims about the field counts -/

theorem generateMachineCode_not_malformed_of_R (op f1 : String) (rest : List String)
    (f : Nat) (hR : R_function_codes.lookup op = some f)
    (hlen : (op :: f1 :: rest).length = 4 ∨ (op :: f1 :: rest).length = 2) (m : String) :
    generateMachineCode (op :: f1 :: rest) ≠ .error (.MalformedOperandCount m) := by
  intro h
  rw [generateMachineCode_of_R op f1 rest f hR] at h
  exact absurd (operandOnly_generateRType _ op f hlen _ h) (by simp [MIPSError.isOperandError])

theorem generateMachineCode_jr_extra (r a b : String) :
    generateMachineCode ["jr", r, a, b] = generateMachineCode ["jr", r] := by
  have hR : R_function_codes.lookup "jr" = some 0x08 := by decide
  rw [generateMachineCode_of_R "jr" r [a, b] _ hR, generateMachineCode_of_R "jr" r [] _ hR]
  simp [generateRType, vectorAt]

/-- C14 (as amended). For every field list with at least 2 fields whose
mnemonic is one of `add, sub, and, or, slt, jr`: when the field count is neither
2 nor 4, `generateMachineCode` fails with `MalformedOperandCount`; when the
count is 4 (whatever the mnemonic) or the count is 2 and the mnemonic is `jr`,
it does not fail with `MalformedOperandCount`. In particular a `jr` with 4
fields is not rejected: it is encoded from its first operand alone, like the
2-field `jr`. -/
theorem rtype_field_count :
    (∀ (op f1 : String) (rest : List String),
      op ∈ ["add", "sub", "and", "or", "slt", "jr"] →
      (¬ ((op :: f1 :: rest).length = 2 ∨ (op :: f1 :: rest).length = 4) →
        generateMachineCode (op :: f1 :: rest) =
          .error (.MalformedOperandCount "R type instructions must have 4 or 2 fields")) ∧
      ((op :: f1 :: rest).length = 4 ∨ ((op :: f1 :: rest).length = 2 ∧ op = "jr") →
        ∀ m, generateMachineCode (op :: f1 :: rest) ≠ .error (.MalformedOperandCount m))) ∧
    (∀ r a b : String, generateMachineCode ["jr", r, a, b] = generateMachineCode ["jr", r]) ∧
    generateMachineCode ["jr", "$ra", "$t0", "$t1"] = .ok 0x03E00008 ∧
    generateMachineCode ["add", "$v1", "$v0"] =
      .error (.MalformedOperandCount "R type instructions must have 4 or 2 fields") := by
  refine ⟨?_, generateMachineCode_jr_extra, by decide, by decide⟩
  intro op f1 rest hop
  have hf : ∃ f, R_function_codes.lookup op = some f := by
    simp only [List.mem_cons, List.mem_singleton, List.mem_nil_iff, or_false] at hop
    rcases hop with rfl | rfl | rfl | rfl | rfl | rfl <;> exact ⟨_, rfl⟩
  obtain ⟨f, hf⟩ := hf
  constructor
  · intro hlen
    rw [generateMachineCode_of_R op f1 rest f hf]
    exact generateRType_of_bad_count _ op f (fun h => hlen h.symm)
  · intro hlen m
    refine generateMachineCode_not_malformed_of_R op f1 rest f hf ?_ m
    rcases hlen with h | ⟨h, _⟩
    · exact Or.inl h
    · exact Or.inr h

/-- Witness for C14: the general statement at the three fields `add $v1 $v0`
(rejected) and at the four fields `jr $ra $t0 $t1` (not rejected). -/
theorem rtype_field_count_witness :
    generateMachineCode ["add", "$v1", "$v0"] =
        .error (.MalformedOperandCount "R type instructions must have 4 or 2 fields") ∧
      ∀ m, generateMachineCode ["jr", "$ra", "$t0", "$t1"] ≠
        .error (.MalformedOperandCount m) :=
  ⟨(rtype_field_count.1 "add" "$v1" ["$v0"] (by decide)).1 (by decide),
    (rtype_field_count.1 "jr" "$ra" ["$t0", "$t1"] (by decide)).2 (Or.inl rfl)⟩

/-- Counterexample to C14 as stated: a `jr` with 4 fields is not rejected with
`MalformedOperandCount`; it is encoded as `jr $ra`. -/
theorem rtype_jr_four_fields_accepted :
    generateMachineCode ["jr", "$ra", "$t0", "$t1"] = .ok 0x03E00008 ∧
    ∀ m, generateMachineCode ["jr", "$ra", "$t0", "$t1"] ≠
      .error (.MalformedOperandCount m) := by
  have h : generateMachineCode ["jr", "$ra", "$t0", "$t1"] = .ok 0x03E00008 := by decide
  refine ⟨h, ?_⟩
  intro m hm
  rw [h] at hm
  cases hm

theorem generateMachineCode_lui_extra (rt imm : String) (rest : List String) :
    generateMachineCode ("lui" :: rt :: imm :: rest) = generateMachineCode ["lui", rt, imm] := by
  have hR : R_function_codes.lookup "lui" = none := by decide
  have hI : I_op_codes.lookup "lui" = some 0x0f := by decide
  rw [generateMachineCode_of_I "lui" rt (imm :: rest) _ hR hI,
    generateMachineCode_of_I "lui" rt [imm] _ hR hI]
  simp [generateIType, vectorAt]

theorem generateMachineCode_itype_extra (op : String) (o : Nat) (rt rs imm : String)
    (rest : List String) (hR : R_function_codes.lookup op = none)
    (hI : I_op_codes.lookup op = some o) :
    generateMachineCode (op :: rt :: rs :: imm :: rest) =
      generateMachineCode [op, rt, rs, imm] := by
  rw [generateMachineCode_of_I op rt (rs :: imm :: rest) _ hR hI,
    generateMachineCode_of_I op rt [rs, imm] _ hR hI]
  by_cases hmem : op = "lw" ∨ op = "sw"
  · simp [generateIType, hmem, getMemoryAccessFields, vectorAt]
  · by_cases hlui : op = "lui"
    · simp [generateIType, hlui, vectorAt]
    · simp [generateIType, hmem, hlui, vectorAt]

theorem generateMachineCode_not_malformed_of_I (op f1 : String) (rest : List String)
    (o : Nat) (hR : R_function_codes.lookup op = none) (hI : I_op_codes.lookup op = some o)
    (hmem : ¬ (op = "lw" ∨ op = "sw")) (m : String) :
    generateMachineCode (op :: f1 :: rest) ≠ .error (.MalformedOperandCount m) := by
  intro h
  rw [generateMachineCode_of_I op f1 rest o hR hI] at h
  exact absurd (operandOnly_generateIType _ op o (fun h1 => absurd h1 hmem) _ h)
    (by simp [MIPSError.isOperandError])

/-- C15 (as amended). `generateMachineCode` makes no field-count check for
`lui`, `addi`, `ori` and `beq`: for every field list whose mnemonic is `lui`
with at least 3 fields, or `addi`, `ori` or `beq` with at least 4 fields, it
does not fail with `MalformedOperandCount`, and the fields beyond the third
(`lui`) or the fourth (`addi`, `ori`, `beq`) are ignored: the outcome is that of
the list cut to its first 3, respectively 4, fields. -/
theorem itype_field_count :
    (∀ (rt imm : String) (rest : List String),
      generateMachineCode ("lui" :: rt :: imm :: rest) = generateMachineCode ["lui", rt, imm] ∧
      ∀ m, generateMachineCode ("lui" :: rt :: imm :: rest) ≠
        .error (.MalformedOperandCount m)) ∧
    (∀ (op rt rs imm : String) (rest : List String), op ∈ ["addi", "ori", "beq"] →
      generateMachineCode (op :: rt :: rs :: imm :: rest) =
        generateMachineCode [op, rt, rs, imm] ∧
      ∀ m, generateMachineCode (op :: rt :: rs :: imm :: rest) ≠
        .error (.MalformedOperandCount m)) ∧
    generateMachineCode ["lui", "$t1", "0x2000", "0x1"] = .ok 0x3C092000 ∧
    generateMachineCode ["ori", "$t1", "$t1", "0x14", "$t2"] = .ok 0x35290014 := by
  refine ⟨?_, ?_, by decide, by decide⟩
  · intro rt imm rest
    exact ⟨generateMachineCode_lui_extra rt imm rest,
      generateMachineCode_not_malformed_of_I "lui" rt (imm :: rest) 0x0f (by decide)
        (by decide) (by decide)⟩
  · intro op rt rs imm rest hop
    have ho : ∃ o, R_function_codes.lookup op = none ∧ I_op_codes.lookup op = some o ∧
        ¬ (op = "lw" ∨ op = "sw") := by
      simp only [List.mem_cons, List.mem_singleton, List.mem_nil_iff, or_false] at hop
      rcases hop with rfl | rfl | rfl <;> exact ⟨_, by decide, rfl, by decide⟩
    obtain ⟨o, hR, hI, hmem⟩ := ho
    exact ⟨generateMachineCode_itype_extra op o rt rs imm rest hR hI,
      generateMachineCode_not_malformed_of_I op rt (rs :: imm :: rest) o hR hI hmem⟩

/-- Witness for C15: the general statement at the five fields
`ori $t1 $t1 0x14 $t2`. -/
theorem itype_field_count_witness :
    generateMachineCode ["ori", "$t1", "$t1", "0x14", "$t2"] =
        generateMachineCode ["ori", "$t1", "$t1", "0x14"] ∧
      ∀ m, generateMachineCode ["ori", "$t1", "$t1", "0x14", "$t2"] ≠
        .error (.MalformedOperandCount m) :=
  itype_field_count.2.1 "ori" "$t1" "$t1" "0x14" ["$t2"] (by decide)

/-- Counterexample to C15 as stated: a `lui` with 4 fields and an `ori` with 5
fields are not rejected with `MalformedOperandCount`; both return a word. -/
theorem itype_extra_fields_accepted :
    generateMachineCode ["lui", "$t1", "0x2000", "0x1"] = .ok 0x3C092000 ∧
    generateMachineCode ["ori", "$t1", "$t1", "0x14", "$t2"] = .ok 0x35290014 := by
  decide

/-! ## Claims about the line driver -/

theorem parseLine_of_only_delimiters (line : String) (hne : line.data ≠ [])
    (h : ∀ c ∈ line.data, c = ' ' ∨ c = ',') :
    extractInstructionEntities line = [] ∧ parseLine line = .error .EmptyInstruction := by
  have hd : ∀ c ∈ line.data, isDelimiter c = true := by
    intro c hc
    rcases h c hc with rfl | rfl <;> decide
  have he : extractInstructionEntities line = [] := by
    unfold extractInstructionEntities
    rw [extract_only_delimiters line.data hd []]
    rfl
  refine ⟨he, ?_⟩
  unfold parseLine
  rw [if_pos hne, he]
  rfl

/-- C16 (as amended). For the empty line, the per-line step of `parse` produces
no output entry and raises no error, so processing continues with the next
line. For a non-empty line made only of spaces and commas, the token sequence
is empty, `generateMachineCode` is called on it and fails with
`EmptyInstruction`, and the run ends there without an output entry for that
line or any later one. -/
theorem blank_line_step :
    parseLine "" = .ok none ∧
    (∀ rest : List String, parse ("" :: rest) = parse rest) ∧
    (∀ line : String, line.data ≠ [] → (∀ c ∈ line.data, c = ' ' ∨ c = ',') →
      extractInstructionEntities line = [] ∧
      parseLine line = .error .EmptyInstruction ∧
      ∀ rest : List String, parse (line :: rest) = ([], some .EmptyInstruction)) := by
  refine ⟨by decide, ?_, ?_⟩
  · intro rest
    have h : parseLine "" = .ok none := by decide
    rw [parse, h]
    simp
  · intro line hne h
    obtain ⟨he, hp⟩ := parseLine_of_only_delimiters line hne h
    refine ⟨he, hp, ?_⟩
    intro rest
    rw [parse, hp]

/-- Witness for C16: the general statement at the line of two spaces and a
comma. -/
theorem blank_line_step_witness :
    extractInstructionEntities " , " = [] ∧
      parseLine " , " = .error .EmptyInstruction ∧
      ∀ rest : List String, parse (" , " :: rest) = ([], some .EmptyInstruction) :=
  blank_line_step.2.2 " , " (by decide) (by decide)

/-- Counterexample to C16 as stated: the line of one space has an empty token
sequence, and the per-line step of `parse` raises `EmptyInstruction` on it. -/
theorem blank_line_of_spaces_fails :
    extractInstructionEntities " " = [] ∧
    parseLine " " = .error .EmptyInstruction ∧
    parse [" ", "jr $ra"] = ([], some .EmptyInstruction) := by
  decide

/-! ## Oversized immediates -/

theorem generateMachineCode_itype_hex (op : String) (o : Nat) (rt rs imm : String) (t s : Nat)
    (hR : R_function_codes.lookup op = none) (hop : I_op_codes.lookup op = some o)
    (hlw : op ≠ "lw") (hsw : op ≠ "sw") (hlui : op ≠ "lui") (ho : o < 64)
    (ht : getRegisterValue rt = .ok t) (hs : getRegisterValue rs = .ok s) :
    generateMachineCode [op, rt, rs, imm] =
      (stringToHex imm).map (fun w => (o <<< 26) ||| (s <<< 21) ||| (t <<< 16) ||| w % 2 ^ 16) := by
  have hs5 : s % 32 = s := Nat.mod_eq_of_lt (by have := getRegisterValue_le hs; omega)
  have ht5 : t % 32 = t := Nat.mod_eq_of_lt (by have := getRegisterValue_le ht; omega)
  have ho6 : o % 64 = o := Nat.mod_eq_of_lt ho
  cases hv : stringToHex imm <;>
    simp [generateMachineCode, vectorAt, hR, hop, generateIType, hlw, hsw, hlui, hs, ht, hv,
      bind, Except.bind, pure, Except.pure, I_TYPE_STRUCT.value, I_TYPE_STRUCT.zero, hs5, ht5,
      ho6, Except.map]

theorem generateMachineCode_lui_hex (o : Nat) (rt imm : String) (t : Nat)
    (hop : I_op_codes.lookup "lui" = some o) (ho : o < 64)
    (ht : getRegisterValue rt = .ok t) :
    generateMachineCode ["lui", rt, imm] =
      (stringToHex imm).map (fun w => (o <<< 26) ||| (t <<< 16) ||| w % 2 ^ 16) := by
  have ht5 : t % 32 = t := Nat.mod_eq_of_lt (by have := getRegisterValue_le ht; omega)
  have ho6 : o % 64 = o := Nat.mod_eq_of_lt ho
  have hR : R_function_codes.lookup "lui" = none := by decide
  cases hv : stringToHex imm <;>
    simp [generateMachineCode, vectorAt, hR, hop, generateIType, ht, hv, bind,
      Except.bind, pure, Except.pure, I_TYPE_STRUCT.value, I_TYPE_STRUCT.zero, ht5, ho6,
      Except.map]

theorem generateMachineCode_memory_hex (op : String) (o : Nat) (rt off base : String)
    (ds : List Char) (t s : Nat)
    (hR : R_function_codes.lookup op = none) (hop : I_op_codes.lookup op = some o)
    (hmem : op = "lw" ∨ op = "sw") (ho : o < 64)
    (ht : getRegisterValue rt = .ok t) (hs : getRegisterValue base = .ok s)
    (hform : IsHexForm off ds) :
    generateMachineCode [op, rt, off ++ "(" ++ base ++ ")"] =
      (stringToHex off).map
        (fun w => (o <<< 26) ||| (s <<< 21) ||| (t <<< 16) ||| w % 2 ^ 16) := by
  have hs5 : s % 32 = s := Nat.mod_eq_of_lt (by have := getRegisterValue_le hs; omega)
  have ht5 : t % 32 = t := Nat.mod_eq_of_lt (by have := getRegisterValue_le ht; omega)
  have ho6 : o % 64 = o := Nat.mod_eq_of_lt ho
  have hsplit : splitMemoryOperand (off.data ++ '(' :: (base.data ++ [')'])) [] [] false =
      (off.data, base.data) :=
    splitMemoryOperand_wellFormed off.data base.data []
      (hexForm_no_paren hform) (getRegisterValue_no_paren hs)
  cases hv : stringToHex off <;>
    simp [generateMachineCode, vectorAt, hR, hop, generateIType, hmem, getMemoryAccessFields,
      mapAt, hsplit, hs, ht, hv, bind, Except.bind, pure, Except.pure, I_TYPE_STRUCT.value,
      I_TYPE_STRUCT.zero, hs5, ht5, ho6, Except.map]

/-- C17 (as amended). Encoding silently truncates an oversized immediate: for
every register-immediate instruction (`addi`, `ori`, `beq`, `lui`, `lw`, `sw`)
with valid registers whose immediate is a lexically valid hex literal with
value `v > 0xFFFF`, `generateMachineCode` returns, when `v <= ULONG_MAX`, the
word whose immediate field holds the wrapped value `v mod 2^16` and whose other
fields are those of the instruction; it fails, with the `std::out_of_range` of
`std::stoul`, only when `v > ULONG_MAX`. Tokenizing and encoding
`addi $t0, $t1, 0x12345` gives `0x21282345`. -/
theorem oversized_immediate_truncated :
    (∀ (op : String) (o : Nat) (rt rs imm : String) (t s v : Nat),
      (op, o) ∈ [("beq", 0x04), ("addi", 0x08), ("ori", 0x0D)] →
      getRegisterValue rt = .ok t → getRegisterValue rs = .ok s →
      IsHexLiteral imm v → 0xFFFF < v →
      (v ≤ ULONG_MAX →
        generateMachineCode [op, rt, rs, imm] =
          .ok ((o <<< 26) ||| (s <<< 21) ||| (t <<< 16) ||| (v % 2 ^ 16)) ∧
        bitField ((o <<< 26) ||| (s <<< 21) ||| (t <<< 16) ||| (v % 2 ^ 16)) 0 16 =
          v % 2 ^ 16) ∧
      (ULONG_MAX < v → generateMachineCode [op, rt, rs, imm] = .error .StoulOutOfRange)) ∧
    (∀ (rt imm : String) (t v : Nat),
      getRegisterValue rt = .ok t → IsHexLiteral imm v → 0xFFFF < v →
      (v ≤ ULONG_MAX →
        generateMachineCode ["lui", rt, imm] =
          .ok ((0x0F <<< 26) ||| (t <<< 16) ||| (v % 2 ^ 16))) ∧
      (ULONG_MAX < v → generateMachineCode ["lui", rt, imm] = .error .StoulOutOfRange)) ∧
    (∀ (op : String) (o : Nat) (rt off base : String) (t s v : Nat),
      (op, o) ∈ [("lw", 0x23), ("sw", 0x2b)] →
      getRegisterValue rt = .ok t → getRegisterValue base = .ok s →
      IsHexLiteral off v → 0xFFFF < v →
      (v ≤ ULONG_MAX →
        generateMachineCode [op, rt, off ++ "(" ++ base ++ ")"] =
          .ok ((o <<< 26) ||| (s <<< 21) ||| (t <<< 16) ||| (v % 2 ^ 16))) ∧
      (ULONG_MAX < v →
        generateMachineCode [op, rt, off ++ "(" ++ base ++ ")"] = .error .StoulOutOfRange)) ∧
    generateMachineCode (extractInstructionEntities "addi $t0, $t1, 0x12345") =
      .ok 0x21282345 := by
  refine ⟨?_, ?_, ?_, by decide⟩
  · intro op o rt rs imm t s v hop ht hs hlit _
    have ho : o < 64 ∧ R_function_codes.lookup op = none ∧ I_op_codes.lookup op = some o ∧
        op ≠ "lw" ∧ op ≠ "sw" ∧ op ≠ "lui" := by
      simp only [List.mem_cons, Prod.mk.injEq, List.mem_singleton, List.mem_nil_iff,
        or_false] at hop
      rcases hop with ⟨rfl, rfl⟩ | ⟨rfl, rfl⟩ | ⟨rfl, rfl⟩ <;> decide
    have hg := generateMachineCode_itype_hex op o rt rs imm t s ho.2.1 ho.2.2.1 ho.2.2.2.1
      ho.2.2.2.2.1 ho.2.2.2.2.2 ho.1 ht hs
    obtain ⟨ds, hform, hval⟩ := hlit
    rw [stringToHex_of_form hform, hval] at hg
    constructor
    · intro hv
      rw [if_pos hv] at hg
      refine ⟨?_, (itype_bitFields o s t (v % 2 ^ 16) ho.1 (getRegisterValue_le hs)
        (getRegisterValue_le ht) (Nat.mod_lt _ (by norm_num))).2.2.2⟩
      rw [hg]
      simp [Except.map]
    · intro hv
      rw [if_neg (by omega)] at hg
      rw [hg]
      rfl
  · intro rt imm t v ht hlit _
    have hg := generateMachineCode_lui_hex 0x0F rt imm t (by decide) (by decide) ht
    obtain ⟨ds, hform, hval⟩ := hlit
    rw [stringToHex_of_form hform, hval] at hg
    constructor
    · intro hv
      rw [if_pos hv] at hg
      rw [hg]
      simp [Except.map]
    · intro hv
      rw [if_neg (by omega)] at hg
      rw [hg]
      rfl
  · intro op o rt off base t s v hop ht hs hlit _
    have ho : o < 64 ∧ R_function_codes.lookup op = none ∧ I_op_codes.lookup op = some o ∧
        (op = "lw" ∨ op = "sw") := by
      simp only [List.mem_cons, Prod.mk.injEq, List.mem_singleton, List.mem_nil_iff,
        or_false] at hop
      rcases hop with ⟨rfl, rfl⟩ | ⟨rfl, rfl⟩ <;> decide
    obtain ⟨ds, hform, hval⟩ := hlit
    have hg := generateMachineCode_memory_hex op o rt off base ds t s ho.2.1 ho.2.2.1 ho.2.2.2
      ho.1 ht hs hform
    rw [stringToHex_of_form hform, hval] at hg
    constructor
    · intro hv
      rw [if_pos hv] at hg
      rw [hg]
      simp [Except.map]
    · intro hv
      rw [if_neg (by omega)] at hg
      rw [hg]
      rfl

/-- Witness for C17: the general statement at `addi $t0, $t1, 0x12345`. -/
theorem oversized_immediate_truncated_witness :
    generateMachineCode ["addi", "$t0", "$t1", "0x12345"] =
        .ok ((0x08 <<< 26) ||| (9 <<< 21) ||| (8 <<< 16) ||| (0x12345 % 2 ^ 16)) ∧
      bitField ((0x08 <<< 26) ||| (9 <<< 21) ||| (8 <<< 16) ||| (0x12345 % 2 ^ 16)) 0 16 =
        0x12345 % 2 ^ 16 :=
  (oversized_immediate_truncated.1 "addi" 0x08 "$t0" "$t1" "0x12345" 8 9 0x12345 (by decide)
    (by decide) (by decide)
    ⟨['1', '2', '3', '4', '5'], ⟨rfl, by decide, by decide⟩, by decide⟩ (by decide)).1
    (by decide)

/-- Counterexample to C17 as stated: `addi $t0, $t1, 0x12345` has valid
registers and a lexically valid immediate of value `0x12345 > 0xFFFF`, and
`generateMachineCode` does not fail: it returns `0x21282345`, whose immediate
field holds the wrapped value `0x2345`. -/
theorem oversized_immediate_not_rejected :
    IsHexLiteral "0x12345" 0x12345 ∧
    generateMachineCode (extractInstructionEntities "addi $t0, $t1, 0x12345") =
      .ok 0x21282345 ∧
    bitField 0x21282345 0 16 = 0x2345 := by
  refine ⟨⟨_, ⟨rfl, by decide, by decide⟩, by decide⟩, by decide, by decide⟩

/-! ## Claims about the register-register layout -/

/-- C18 (as amended). For every register-register mnemonic other than `jr`
(`add`, `sub`, `and`, `or`, `slt`, function code `f`) and every valid register
tokens `rd`, `rs`, `rt`, the word returned by
`generateMachineCode [op, rd, rs, rt]` holds the function code in bits 0-5, the
index of `rd` in bits 11-15, the index of `rt` in bits 16-20, the index of `rs`
in bits 21-25, and zero in every other bit: bits 6-10, bits 26-31, and no bit
beyond bit 31. -/
theorem rtype_layout :
    ∀ (op : String) (f : Nat) (rd rs rt : String) (d s t : Nat),
      (op, f) ∈ [("add", 0x20), ("sub", 0x22), ("and", 0x24), ("or", 0x25), ("slt", 0x2A)] →
      getRegisterValue rd = .ok d → getRegisterValue rs = .ok s →
      getRegisterValue rt = .ok t →
      ∃ w, generateMachineCode [op, rd, rs, rt] = .ok w ∧
        bitField w 0 6 = f ∧ bitField w 6 5 = 0 ∧ bitField w 11 5 = d ∧
        bitField w 16 5 = t ∧ bitField w 21 5 = s ∧ bitField w 26 6 = 0 ∧ w < 2 ^ 32 := by
  intro op f rd rs rt d s t hop hd hs ht
  have hf : f < 64 ∧ R_function_codes.lookup op = some f ∧ op ≠ "jr" := by
    simp only [List.mem_cons, Prod.mk.injEq, List.mem_singleton, List.mem_nil_iff,
      or_false] at hop
    rcases hop with ⟨rfl, rfl⟩ | ⟨rfl, rfl⟩ | ⟨rfl, rfl⟩ | ⟨rfl, rfl⟩ | ⟨rfl, rfl⟩ <;> decide
  have hdl := getRegisterValue_le hd
  have hsl := getRegisterValue_le hs
  have htl := getRegisterValue_le ht
  have hb := rtype_bitFields d s t f hdl hsl htl hf.1
  refine ⟨_, generateMachineCode_rtype op f rd rs rt d s t hf.2.1 hf.2.2 hf.1 hd hs ht,
    hb.2.2.2.2.2, hb.2.2.2.2.1, hb.2.2.2.1, hb.2.2.1, hb.2.1, hb.1, ?_⟩
  rw [rtype_word_eq d s t f hdl htl hf.1]
  norm_num
  omega

/-- Witness for C18: the general statement at `add $v1, $v0, $at`. -/
theorem rtype_layout_witness :
    ∃ w, generateMachineCode ["add", "$v1", "$v0", "$at"] = .ok w ∧
      bitField w 0 6 = 0x20 ∧ bitField w 6 5 = 0 ∧ bitField w 11 5 = 3 ∧
      bitField w 16 5 = 1 ∧ bitField w 21 5 = 2 ∧ bitField w 26 6 = 0 ∧ w < 2 ^ 32 :=
  rtype_layout "add" 0x20 "$v1" "$v0" "$at" 3 2 1 (by decide) (by decide) (by decide)
    (by decide)

/-- Counterexample to C18 as stated: in the word of `add $v1, $v0, $at`, where
`rt` is `$at` of index 1, bits 6-10 hold 0, not the index of `rt`, and bits
16-20, which should be zero, hold 1. -/
theorem rtype_rt_not_in_bits_6_10 :
    getRegisterValue "$at" = .ok 1 ∧
    generateMachineCode ["add", "$v1", "$v0", "$at"] = .ok 0x00411820 ∧
    bitField 0x00411820 6 5 = 0 ∧
    bitField 0x00411820 16 5 = 1 := by
  decide

/-! ## Claims about a memory operand without a base -/

theorem getRegisterValue_empty :
    getRegisterValue "" = .error (.InvalidRegister "") := by decide

theorem generateMachineCode_memory_no_open (op rt mem : String) (rest : List String)
    (hmem : op = "lw" ∨ op = "sw") (hopen : ∀ c ∈ mem.data, c ≠ '(') :
    generateMachineCode (op :: rt :: mem :: rest) =
      (getRegisterValue rt).bind (fun _ => .error (.InvalidRegister "")) := by
  have ho : ∃ o, R_function_codes.lookup op = none ∧ I_op_codes.lookup op = some o := by
    rcases hmem with rfl | rfl <;> exact ⟨_, by decide, rfl⟩
  obtain ⟨o, hR, hI⟩ := ho
  have hsplit := splitMemoryOperand_no_open mem.data hopen
  have hlen : ¬ (rest.length + 1 + 1 + 1 < 3) := by omega
  rw [generateMachineCode_of_I op rt (mem :: rest) o hR hI]
  cases hrt : getRegisterValue rt <;>
    simp [generateIType, hmem, getMemoryAccessFields, vectorAt, mapAt, hI, hrt, hsplit,
      getRegisterValue_empty, hlen, bind, Except.bind]

/-- C20. For every `lw` or `sw` field list with at least 3 fields whose third
field contains no `(`, `generateMachineCode` never returns a word; when the
second field is a valid register, the call fails with `InvalidRegister` raised
for the empty base text, whatever the offset text is (valid hex literal or
not), because the base is resolved before the offset is parsed. -/
theorem memory_without_base_fails :
    ∀ (op rt mem : String) (rest : List String), (op = "lw" ∨ op = "sw") →
      (∀ c ∈ mem.data, c ≠ '(') →
      (∀ w, generateMachineCode (op :: rt :: mem :: rest) ≠ .ok w) ∧
      (∀ t, getRegisterValue rt = .ok t →
        generateMachineCode (op :: rt :: mem :: rest) = .error (.InvalidRegister "")) := by
  intro op rt mem rest hmem hopen
  have hg := generateMachineCode_memory_no_open op rt mem rest hmem hopen
  constructor
  · intro w hw
    rw [hg] at hw
    cases hrt : getRegisterValue rt <;> rw [hrt] at hw <;> cases hw
  · intro t ht
    rw [hg, ht]
    rfl

/-- Witness for C20: the general statement at `lw $t1 0x4`, whose offset text
is a valid hex literal, and at `sw $t1 zzz`, whose offset text is not. -/
theorem memory_without_base_fails_witness :
    generateMachineCode ["lw", "$t1", "0x4"] = .error (.InvalidRegister "") ∧
    generateMachineCode ["sw", "$t1", "zzz"] = .error (.InvalidRegister "") :=
  ⟨(memory_without_base_fails "lw" "$t1" "0x4" [] (Or.inl rfl) (by decide)).2 9 (by decide),
    (memory_without_base_fails "sw" "$t1" "zzz" [] (Or.inr rfl) (by decide)).2 9 (by decide)⟩

end MIPSParser
